import Mathlib

/-!
Cloud-in-cell interpolation (`PIC_Interpolation.c`)

A shallow embedding of `src/PIC_Interpolation.c`.

Conventions of the embedding:

* In the definitions that carry the names of the source, C `double` values
  are read as exact rationals (`ℚ`): this is the exact-arithmetic reading of
  the numerical properties.  The definitions ending in `Double` compute the
  same expressions in IEEE 754 binary64 arithmetic (round to nearest, ties to
  even).
* C `int` values are integers (`Int`); `/` and `%` are the truncating C
  operators (`Int.tdiv`, `Int.tmod`).  The scatter layout (`scatterLoop`,
  `counts`, `displs`) is computed in 32-bit `int` arithmetic (`wrapInt`); the
  definitions ending in `Exact` read the same loop over the mathematical
  integers and agree with it while `2 * totalPoints` fits an `int`.  The index
  arithmetic of `cloudInACellInterpolation` is read over the mathematical
  integers.
* A C buffer is a `List`; an access outside the buffer is undefined in C and
  makes the embedded function return `none`.
* The OpenMP loop over particles is a loop in iteration order in which the
  thread that runs iteration `i` is given by a schedule `sched i`
  (the value of `omp_get_thread_num ()` in that iteration).
-/

namespace PIC

/-! ## Data model -/

/-- Structure to store coordinates of points (`typedef struct { double x, y; } Point`). -/
structure Point where
  x : ℚ
  y : ℚ
  deriving DecidableEq, Repr

/-- The global variables read by `cloudInACellInterpolation`. -/
structure Globals where
  gridWidth : Int
  gridHeight : Int
  numX : Int
  numY : Int
  numThreads : Int
  stepX : ℚ
  stepY : ℚ
  deriving DecidableEq, Repr

/-- The assignments of `main` to the globals (lines 114 and 134-137):
`gridWidth = numX + 1`, `gridHeight = numY + 1`, `stepX = 1.0 / numX`,
`stepY = 1.0 / numY`. -/
def setupGrid (numX numY numThreads : Int) : Globals :=
  { gridWidth := numX + 1
    gridHeight := numY + 1
    numX := numX
    numY := numY
    numThreads := numThreads
    stepX := 1 / (numX : ℚ)
    stepY := 1 / (numY : ℚ) }

/-! ## Domain decomposition (`main`, lines 143-166) -/

/-- Line 143: `pointsPerProc = totalPoints / size`. -/
def pointsPerProc (totalPoints size : Int) : Int :=
  Int.tdiv totalPoints size

/-- Line 144: `remainder = totalPoints % size`. -/
def remainder (totalPoints size : Int) : Int :=
  Int.tmod totalPoints size

/-- Line 145: `pointsForMe = pointsPerProc + (rank < remainder ? 1 : 0)`. -/
def pointsForMe (totalPoints size rank : Int) : Int :=
  pointsPerProc totalPoints size + (if rank < remainder totalPoints size then 1 else 0)

/-- The value of a C `int` expression whose mathematical value is `z`: the
representative of `z` modulo `2 ^ 32` in `[-2 ^ 31, 2 ^ 31)` (32-bit two's
complement; C leaves signed overflow undefined, this is what the compiled
program computes). -/
def wrapInt (z : Int) : Int :=
  (z + 2147483648) % 4294967296 - 2147483648

/-- The loop of lines 157-162 in `int` arithmetic, started at index `i` with
running `offset` and `k` iterations to go; it yields the pairs
`(counts[i], displs[i])` in index order.  The loop counter stays below `size`
and is not wrapped. -/
def scatterLoop (ppp rem : Int) : Nat → Int → Int → List (Int × Int)
  | 0, _, _ => []
  | k + 1, i, offset =>
    let c := wrapInt ((if i < rem then wrapInt (ppp + 1) else ppp) * 2)
    (c, offset) :: scatterLoop ppp rem k (i + 1) (wrapInt (offset + c))

/-- The pairs `(counts[i], displs[i])` for `i = 0 .. size - 1`. -/
def scatterLayout (totalPoints size : Int) : List (Int × Int) :=
  scatterLoop (pointsPerProc totalPoints size) (remainder totalPoints size) size.toNat 0 0

/-- The array `counts` after the loop of lines 157-162. -/
def counts (totalPoints size : Int) : List Int :=
  (scatterLayout totalPoints size).map Prod.fst

/-- The array `displs` after the loop of lines 157-162. -/
def displs (totalPoints size : Int) : List Int :=
  (scatterLayout totalPoints size).map Prod.snd

/-- The loop of lines 157-162 read over the mathematical integers (no
overflow), started at index `i` with running `offset` and `k` iterations to
go.  It agrees with `scatterLoop` as long as no intermediate value leaves the
range of `int`. -/
def scatterLoopExact (ppp rem : Int) : Nat → Int → Int → List (Int × Int)
  | 0, _, _ => []
  | k + 1, i, offset =>
    let c := (if i < rem then ppp + 1 else ppp) * 2
    (c, offset) :: scatterLoopExact ppp rem k (i + 1) (offset + c)

/-- The pairs `(counts[i], displs[i])` read over the mathematical integers. -/
def scatterLayoutExact (totalPoints size : Int) : List (Int × Int) :=
  scatterLoopExact (pointsPerProc totalPoints size) (remainder totalPoints size) size.toNat 0 0

/-- The array `counts` read over the mathematical integers. -/
def countsExact (totalPoints size : Int) : List Int :=
  (scatterLayoutExact totalPoints size).map Prod.fst

/-- The array `displs` read over the mathematical integers. -/
def displsExact (totalPoints size : Int) : List Int :=
  (scatterLayoutExact totalPoints size).map Prod.snd

/-- The array of points as the scatter sees it: a sequence of `double`s,
two per point. -/
def flattenPoints : List Point → List ℚ
  | [] => []
  | p :: ps => p.x :: p.y :: flattenPoints ps

/-- A sequence of `double`s read back as points. -/
def unflattenPoints : List ℚ → List Point
  | x :: y :: rest => { x := x, y := y } :: unflattenPoints rest
  | _ => []

/-- The part of the send buffer that `MPI_Scatterv` delivers to rank `r`:
`cnts[r]` elements starting at element `dsp[r]`. -/
def scattervSlice (sendbuf : List ℚ) (cnts dsp : List Int) (r : Nat) : List ℚ :=
  (sendbuf.drop (dsp.getD r 0).toNat).take (cnts.getD r 0).toNat

/-- The contents of `myPoints` on rank `r` after the scatter of lines 164-166,
with the counts and displacements read over the mathematical integers (they
are the `int` values whenever `2 * totalPoints` fits an `int`). -/
def myPoints (allPoints : List Point) (size : Int) (r : Nat) : List Point :=
  unflattenPoints
    (scattervSlice (flattenPoints allPoints) (countsExact allPoints.length size)
      (displsExact allPoints.length size) r)

/-! ## Local accumulation (`cloudInACellInterpolation`, lines 52-95) -/

/-- The C conversion `(int) q` of a `double`: truncation toward zero. -/
def truncToInt (q : ℚ) : Int :=
  if 0 ≤ q then ⌊q⌋ else ⌈q⌉

/-- The statement `buf[idx] += v`; `none` when `idx` is outside the buffer. -/
def addAt (buf : List ℚ) (idx : Int) (v : ℚ) : Option (List ℚ) :=
  if 0 ≤ idx ∧ idx < buf.length then
    some (buf.set idx.toNat (buf.getD idx.toNat 0 + v))
  else
    none

/-- The expression `buf[idx]`; `none` when `idx` is outside the buffer. -/
def readAt (buf : List ℚ) (idx : Int) : Option ℚ :=
  if 0 ≤ idx then buf[idx.toNat]? else none

/-- The call `memset (mesh, 0, n * sizeof (double))`: the first `n` elements
become zero; `none` when the buffer has fewer than `n` elements. -/
def memsetZero (mesh : List ℚ) (n : Int) : Option (List ℚ) :=
  if 0 ≤ n ∧ n ≤ mesh.length then
    some (List.replicate n.toNat 0 ++ mesh.drop n.toNat)
  else
    none

/-- The call `calloc (n, sizeof (double))`: a zeroed buffer of `n` elements
(no element when `n` is not positive). -/
def callocZero (n : Int) : List ℚ :=
  List.replicate n.toNat 0

/-- Line 62: `weight = 1.0`. -/
def weight : ℚ := 1

/-- Line 64: `gridX = (int)(px / stepX)`. -/
def gridX (g : Globals) (p : Point) : Int :=
  truncToInt (p.x / g.stepX)

/-- Line 65: `gridY = (int)(py / stepY)`. -/
def gridY (g : Globals) (p : Point) : Int :=
  truncToInt (p.y / g.stepY)

/-- Line 67: `localX = px - gridX * stepX`. -/
def localX (g : Globals) (p : Point) : ℚ :=
  p.x - (gridX g p : ℚ) * g.stepX

/-- Line 68: `localY = py - gridY * stepY`. -/
def localY (g : Globals) (p : Point) : ℚ :=
  p.y - (gridY g p : ℚ) * g.stepY

/-- Line 70: `p1 = gridY * gridWidth + gridX`. -/
def p1 (g : Globals) (p : Point) : Int :=
  gridY g p * g.gridWidth + gridX g p

/-- Line 71: `p2 = gridY * gridWidth + (gridX + 1)`. -/
def p2 (g : Globals) (p : Point) : Int :=
  gridY g p * g.gridWidth + (gridX g p + 1)

/-- Line 72: `p3 = (gridY + 1) * gridWidth + gridX`. -/
def p3 (g : Globals) (p : Point) : Int :=
  (gridY g p + 1) * g.gridWidth + gridX g p

/-- Line 73: `p4 = (gridY + 1) * gridWidth + (gridX + 1)`. -/
def p4 (g : Globals) (p : Point) : Int :=
  (gridY g p + 1) * g.gridWidth + (gridX g p + 1)

/-- Line 75: `area1 = (stepX - localX) * (stepY - localY)`. -/
def area1 (g : Globals) (p : Point) : ℚ :=
  (g.stepX - localX g p) * (g.stepY - localY g p)

/-- Line 76: `area2 = localX * (stepY - localY)`. -/
def area2 (g : Globals) (p : Point) : ℚ :=
  localX g p * (g.stepY - localY g p)

/-- Line 77: `area3 = (stepX - localX) * localY`. -/
def area3 (g : Globals) (p : Point) : ℚ :=
  (g.stepX - localX g p) * localY g p

/-- Line 78: `area4 = localX * localY`. -/
def area4 (g : Globals) (p : Point) : ℚ :=
  localX g p * localY g p

/-- The body of the particle loop (lines 58-84) for the particle `p`, run by
thread `threadID` on the scratch buffer `tpm`. -/
def depositPoint (g : Globals) (threadID : Int) (tpm : List ℚ) (p : Point) :
    Option (List ℚ) :=
  let offset := threadID * g.gridWidth * g.gridHeight
  match addAt tpm (offset + p1 g p) (area1 g p * weight) with
  | none => none
  | some t1 =>
    match addAt t1 (offset + p2 g p) (area2 g p * weight) with
    | none => none
    | some t2 =>
      match addAt t2 (offset + p3 g p) (area3 g p * weight) with
      | none => none
      | some t3 => addAt t3 (offset + p4 g p) (area4 g p * weight)

/-- The particle loop of lines 57-85 from iteration `i` on, over the particles
still to be processed; iteration `j` runs on thread `sched j`. -/
def depositLoop (g : Globals) (sched : Nat → Int) :
    List Point → Nat → List ℚ → Option (List ℚ)
  | [], _, tpm => some tpm
  | p :: ps, i, tpm =>
    match depositPoint g (sched i) tpm p with
    | none => none
    | some tpm1 => depositLoop g sched ps (i + 1) tpm1

/-- The inner loop of lines 89-91 for the cell `i`, from thread index `t`
with `k` iterations to go: `mesh[i] += threadPrivateMesh[t * gridWidth * gridHeight + i]`. -/
def sumThreads (g : Globals) (tpm : List ℚ) (i : Int) :
    Nat → Int → List ℚ → Option (List ℚ)
  | 0, _, mesh => some mesh
  | k + 1, t, mesh =>
    match readAt tpm (t * g.gridWidth * g.gridHeight + i) with
    | none => none
    | some v =>
      match addAt mesh i v with
      | none => none
      | some mesh1 => sumThreads g tpm i k (t + 1) mesh1

/-- The cell loop of lines 88-92 from cell `i` with `k` iterations to go. -/
def reduceLoop (g : Globals) (tpm : List ℚ) :
    Nat → Int → List ℚ → Option (List ℚ)
  | 0, _, mesh => some mesh
  | k + 1, i, mesh =>
    match sumThreads g tpm i g.numThreads.toNat 0 mesh with
    | none => none
    | some mesh1 => reduceLoop g tpm k (i + 1) mesh1

/-- Cloud-in-a-Cell Interpolation function (lines 52-95).  `mesh` is the
caller's buffer, `points` the `numPoints` particles, `sched i` the thread that
runs iteration `i` of the particle loop.  The result is the contents of `mesh`
on return. -/
def cloudInACellInterpolation (g : Globals) (sched : Nat → Int) (mesh : List ℚ)
    (points : List Point) : Option (List ℚ) :=
  match memsetZero mesh (g.gridWidth * g.gridHeight) with
  | none => none
  | some mesh0 =>
    let threadPrivateMesh := callocZero (g.numThreads * g.gridWidth * g.gridHeight)
    match depositLoop g sched points 0 threadPrivateMesh with
    | none => none
    | some tpm => reduceLoop g tpm (g.gridWidth * g.gridHeight).toNat 0 mesh0

/-- A particle is valid for deposition when `0 ≤ x < numX * stepX` and
`0 ≤ y < numY * stepY`. -/
def validPoint (g : Globals) (p : Point) : Prop :=
  (0 ≤ p.x ∧ p.x < (g.numX : ℚ) * g.stepX) ∧ (0 ≤ p.y ∧ p.y < (g.numY : ℚ) * g.stepY)

instance instDecidableValidPoint (g : Globals) (p : Point) : Decidable (validPoint g p) := by
  unfold validPoint
  infer_instance

/-- A schedule is valid for `n` iterations when every iteration runs on a
thread of the team: `0 ≤ sched i < numThreads`. -/
def validSched (g : Globals) (sched : Nat → Int) (n : Nat) : Prop :=
  ∀ i, i < n → 0 ≤ sched i ∧ sched i < g.numThreads

/-- The bilinear kernel: what the particle `p` contributes to the node with
flat index `i`. -/
def kernelAt (g : Globals) (p : Point) (i : Int) : ℚ :=
  (if p1 g p = i then area1 g p * weight else 0)
    + (if p2 g p = i then area2 g p * weight else 0)
    + (if p3 g p = i then area3 g p * weight else 0)
    + (if p4 g p = i then area4 g p * weight else 0)

/-- The reference mesh: at every node the sum of the kernel contributions of
all particles. -/
def referenceMesh (g : Globals) (points : List Point) : List ℚ :=
  (List.range (g.gridWidth * g.gridHeight).toNat).map
    (fun i : Nat => (points.map (fun p => kernelAt g p (i : Int))).sum)

/-- What the particles from iteration `i` on add to slot `k` of the scratch
buffer under the schedule `sched`. -/
def slotSum (g : Globals) (sched : Nat → Int) : List Point → Nat → Int → ℚ
  | [], _, _ => 0
  | p :: ps, i, k =>
    kernelAt g p (k - sched i * g.gridWidth * g.gridHeight) + slotSum g sched ps (i + 1) k

/-! ## The iteration loop and the final reduction (`main`, lines 148-181) -/

/-- The iteration loop of lines 148-179 as seen by one rank: every round has
the contents of `myPoints` after the scatter and the schedule of its particle
loop; the state is `localMesh`. -/
def iterationLoop (g : Globals) :
    List ((Nat → Int) × List Point) → List ℚ → Option (List ℚ)
  | [], localMesh => some localMesh
  | (sched, pts) :: rest, localMesh =>
    match cloudInACellInterpolation g sched localMesh pts with
    | none => none
    | some m => iterationLoop g rest m

/-- The local mesh that enters `MPI_Reduce` (line 181): `localMesh` is
allocated zeroed at line 139 and then goes through the iteration loop. -/
def localMeshAtReduce (g : Globals) (rounds : List ((Nat → Int) × List Point)) :
    Option (List ℚ) :=
  iterationLoop g rounds (callocZero (g.gridWidth * g.gridHeight))

/-- The call `MPI_Reduce (..., count, MPI_DOUBLE, MPI_SUM, 0, ...)`: element
`i < count` of the result is the sum over the ranks of element `i` of their
send buffers. -/
def mpiReduceSum (count : Nat) (bufs : List (List ℚ)) : List ℚ :=
  (List.range count).map (fun i => (bufs.map (fun b => b.getD i 0)).sum)

/-- One round on `size` ranks followed by the reduction: rank `r` runs
`cloudInACellInterpolation` on its shard with the schedule `scheds r`, and the
local meshes are summed into the global mesh. -/
def globalMeshOfRound (g : Globals) (scheds : Nat → Nat → Int) (allPoints : List Point)
    (size : Int) : Option (List ℚ) :=
  ((List.range size.toNat).mapM
      (fun r => cloudInACellInterpolation g (scheds r)
        (callocZero (g.gridWidth * g.gridHeight)) (myPoints allPoints size r))).map
    (mpiReduceSum (g.gridWidth * g.gridHeight).toNat)

/-! ## Bounds of the buffer accesses -/

/-- The four writes of the loop body for the particle `p` on thread `t` fall
inside a scratch buffer of `len` elements. -/
def pointInBounds (g : Globals) (t : Int) (p : Point) (len : Nat) : Prop :=
  (0 ≤ t * g.gridWidth * g.gridHeight + p1 g p
      ∧ t * g.gridWidth * g.gridHeight + p1 g p < (len : Int))
    ∧ (0 ≤ t * g.gridWidth * g.gridHeight + p2 g p
      ∧ t * g.gridWidth * g.gridHeight + p2 g p < (len : Int))
    ∧ (0 ≤ t * g.gridWidth * g.gridHeight + p3 g p
      ∧ t * g.gridWidth * g.gridHeight + p3 g p < (len : Int))
    ∧ (0 ≤ t * g.gridWidth * g.gridHeight + p4 g p
      ∧ t * g.gridWidth * g.gridHeight + p4 g p < (len : Int))

/-- All writes of the particle loop from iteration `i` on fall inside a scratch
buffer of `len` elements. -/
def loopInBounds (g : Globals) (sched : Nat → Int) (len : Nat) : List Point → Nat → Prop
  | [], _ => True
  | p :: ps, i => pointInBounds g (sched i) p len ∧ loopInBounds g sched len ps (i + 1)

/-- The four node indices of the particle `p` lie in the mesh:
`0 ≤ p1, p2, p3, p4 < gridWidth * gridHeight`. -/
def indicesInMesh (g : Globals) (p : Point) : Prop :=
  (0 ≤ p1 g p ∧ p1 g p < g.gridWidth * g.gridHeight)
    ∧ (0 ≤ p2 g p ∧ p2 g p < g.gridWidth * g.gridHeight)
    ∧ (0 ≤ p3 g p ∧ p3 g p < g.gridWidth * g.gridHeight)
    ∧ (0 ≤ p4 g p ∧ p4 g p < g.gridWidth * g.gridHeight)

/-! ## Sample inputs -/

/-- Four valid particles of the grid with `numX = numY = 2`. -/
def samplePoints : List Point :=
  [{ x := 1 / 2, y := 1 / 2 }, { x := 1 / 4, y := 3 / 4 }, { x := 0, y := 0 },
    { x := 9 / 10, y := 1 / 10 }]

/-- A schedule that alternates between two threads. -/
def alternate (i : Nat) : Int :=
  ((i % 2 : Nat) : Int)

/-- A schedule that runs every iteration on thread `0`. -/
def onThreadZero (_ : Nat) : Int := 0

/-! ## The argument check of `main` (lines 106-111) -/

/-- The observable actions of one rank of `main`. -/
inductive Event where
  /-- The `printf` of the usage message (line 108). -/
  | printUsage
  /-- A call of `MPI_Finalize` (lines 109 and 193). -/
  | mpiFinalize
  /-- The `fopen` of the input file (line 118). -/
  | openInput
  /-- An `fread` from the input file (lines 123-126 and 152). -/
  | readInput
  /-- A call of `cloudInACellInterpolation` (line 175). -/
  | computeMesh
  /-- Any other action of lines 113-195 (messages, collectives, the output file). -/
  | otherAction
  deriving DecidableEq, Repr

/-- What one rank of `main` does: its actions in order and the value it returns. -/
structure Outcome where
  events : List Event
  exitStatus : Int
  deriving DecidableEq, Repr

/-- The function `main` on one rank, as far as the argument check of lines
106-111 decides it.  `rest` is the outcome of lines 113-195, which run only
when the check passes.  The text of the usage message is not modelled. -/
def main (argc rank : Int) (rest : Outcome) : Outcome :=
  if argc ≠ 3 then
    { events := (if rank = 0 then [Event.printUsage] else []) ++ [Event.mpiFinalize]
      exitStatus := 1 }
  else
    rest

/-- A run of lines 113-195 that reads the input and computes a mesh. -/
def sampleRest : Outcome :=
  { events := [Event.openInput, Event.readInput, Event.otherAction, Event.computeMesh,
      Event.otherAction, Event.mpiFinalize]
    exitStatus := 0 }

/-! ## The bilinear kernel in the words of the specification -/

/-- The specification's kernel (section 4.2, steps 1-4): with the cell
`cellX = floor (x / stepX)`, `cellY = floor (y / stepY)` and the local offsets
`lx = x - cellX * stepX`, `ly = y - cellY * stepY`, the particle contributes
`(stepX - lx) * (stepY - ly)` to the node in row `cellY` and column `cellX`,
`lx * (stepY - ly)` to `(cellY, cellX + 1)`, `(stepX - lx) * ly` to
`(cellY + 1, cellX)`, `lx * ly` to `(cellY + 1, cellX + 1)`, and nothing to any
other node. -/
def specContribution (g : Globals) (p : Point) (row col : Int) : ℚ :=
  let cellX : Int := ⌊p.x / g.stepX⌋
  let cellY : Int := ⌊p.y / g.stepY⌋
  let lx : ℚ := p.x - (cellX : ℚ) * g.stepX
  let ly : ℚ := p.y - (cellY : ℚ) * g.stepY
  if row = cellY ∧ col = cellX then (g.stepX - lx) * (g.stepY - ly)
  else if row = cellY ∧ col = cellX + 1 then lx * (g.stepY - ly)
  else if row = cellY + 1 ∧ col = cellX then (g.stepX - lx) * ly
  else if row = cellY + 1 ∧ col = cellX + 1 then lx * ly
  else 0

/-! ## The grid cell in `double` arithmetic (lines 64-73 and 136-137) -/

/-- The power `2 ^ e` for an integer exponent `e`. -/
def pow2 (e : Int) : ℚ :=
  if 0 ≤ e then (2 : ℚ) ^ e.toNat else 1 / (2 : ℚ) ^ (-e).toNat

/-- The number of halvings that bring `n` below `2`, with `fuel` steps allowed;
for `fuel ≥ n` this is the floor of the binary logarithm of `n ≥ 1`. -/
def halvings : Nat → Nat → Nat
  | 0, _ => 0
  | fuel + 1, n => if n < 2 then 0 else halvings fuel (n / 2) + 1

/-- The binary exponent of a positive rational `q`: the integer `e` with
`2 ^ e ≤ q < 2 ^ (e + 1)`. -/
def binaryExponent (q : ℚ) : Int :=
  let e0 : Int := (halvings q.num.natAbs q.num.natAbs : Int) - (halvings q.den q.den : Int)
  if pow2 e0 ≤ q then e0 else e0 - 1

/-- Rounding to the nearest integer, ties to the even one. -/
def roundHalfEven (m : ℚ) : Int :=
  let r : Int := ⌊m⌋
  if m - (r : ℚ) < 1 / 2 then r
  else if 1 / 2 < m - (r : ℚ) then r + 1
  else if r % 2 = 0 then r
  else r + 1

/-- The `double` nearest to `q` (IEEE 754 binary64, round to nearest, ties to
even: 53 significant bits), for `q` in the range of normal `double`s. -/
def roundToDouble (q : ℚ) : ℚ :=
  if q = 0 then 0
  else
    let ulp : ℚ := pow2 (binaryExponent |q| - 52)
    let v : ℚ := (roundHalfEven (|q| / ulp) : ℚ) * ulp
    if 0 < q then v else -v

/-- The `double` quotient `a / b`. -/
def divDouble (a b : ℚ) : ℚ :=
  roundToDouble (a / b)

/-- The `double` product `a * b`. -/
def mulDouble (a b : ℚ) : ℚ :=
  roundToDouble (a * b)

/-- Lines 136-137 in `double` arithmetic: `stepX = 1.0 / numX` (the `int`
`numX` converts to `double` exactly). -/
def stepDouble (n : Int) : ℚ :=
  divDouble 1 (n : ℚ)

/-- Line 64 in `double` arithmetic: `gridX = (int)(px / stepX)`. -/
def gridXDouble (numX : Int) (p : Point) : Int :=
  truncToInt (divDouble p.x (stepDouble numX))

/-- Line 65 in `double` arithmetic: `gridY = (int)(py / stepY)`. -/
def gridYDouble (numY : Int) (p : Point) : Int :=
  truncToInt (divDouble p.y (stepDouble numY))

/-- Lines 70-73 with the cell of the `double` computation: the indices
`p1, p2, p3, p4` (with `gridWidth = numX + 1`). -/
def nodeIndicesDouble (numX numY : Int) (p : Point) : List Int :=
  [gridYDouble numY p * (numX + 1) + gridXDouble numX p,
    gridYDouble numY p * (numX + 1) + (gridXDouble numX p + 1),
    (gridYDouble numY p + 1) * (numX + 1) + gridXDouble numX p,
    (gridYDouble numY p + 1) * (numX + 1) + (gridXDouble numX p + 1)]

/-- The largest `double` below `1`: `x = y = 1 - 2 ^ (-53)`. -/
def edgeParticle : Point :=
  { x := 1 - 1 / 2 ^ 53, y := 1 - 1 / 2 ^ 53 }

/-! ## Partition lemmas -/

theorem pointsPerProc_natCast (n p : Nat) :
    pointsPerProc (n : Int) (p : Int) = ((n / p : Nat) : Int) := by
  exact (Int.ofNat_tdiv n p).symm

theorem remainder_natCast (n p : Nat) :
    remainder (n : Int) (p : Int) = ((n % p : Nat) : Int) := by
  exact (Int.ofNat_tmod n p).symm

theorem pointsForMe_natCast (n p r : Nat) :
    pointsForMe (n : Int) (p : Int) (r : Int)
      = ((n / p + (if r < n % p then 1 else 0) : Nat) : Int) := by
  simp only [pointsForMe, pointsPerProc_natCast, remainder_natCast]
  split_ifs with h1 h2 h2
  · simp
  · exact absurd (by exact_mod_cast h1) h2
  · exact absurd (by exact_mod_cast h2) h1
  · simp

theorem sum_range_indicator (m p : Nat) :
    ((List.range p).map (fun r => if r < m then 1 else 0)).sum = min m p := by
  induction p with
  | zero => simp
  | succ k ih =>
    rw [List.sum_range_succ, ih]
    split_ifs with h
    · omega
    · omega

theorem sum_range_share (n p : Nat) (hp : 0 < p) :
    ((List.range p).map (fun r => n / p + (if r < n % p then 1 else 0))).sum = n := by
  have h1 : ∀ q : Nat, ((List.range q).map (fun r => n / p + (if r < n % p then 1 else 0))).sum
      = q * (n / p) + ((List.range q).map (fun r => if r < n % p then 1 else 0)).sum := by
    intro q
    induction q with
    | zero => simp
    | succ k ih =>
      rw [List.sum_range_succ, List.sum_range_succ, ih]
      ring
  rw [h1, sum_range_indicator]
  have h2 : n % p < p := Nat.mod_lt _ hp
  have h3 := Nat.div_add_mod n p
  rw [min_eq_left h2.le]
  linarith

theorem length_scatterLoopExact (ppp rem : Int) :
    ∀ (k : Nat) (i off : Int), (scatterLoopExact ppp rem k i off).length = k := by
  intro k
  induction k with
  | zero => intro i off; rfl
  | succ k ih => intro i off; simp [scatterLoopExact, ih]

theorem scatterLoopExact_getElem? (ppp rem : Int) :
    ∀ (k : Nat) (i off : Int) (j : Nat), j < k →
      (scatterLoopExact ppp rem k i off)[j]? =
        some ((if i + (j : Int) < rem then ppp + 1 else ppp) * 2,
          off + ((List.range j).map
            (fun l : Nat => (if i + (l : Int) < rem then ppp + 1 else ppp) * 2)).sum) := by
  intro k
  induction k with
  | zero => intro i off j hj; omega
  | succ k ih =>
    intro i off j hj
    cases j with
    | zero => simp [scatterLoopExact]
    | succ j =>
      have hj2 : j < k := by omega
      simp only [scatterLoopExact, List.getElem?_cons_succ]
      rw [ih (i + 1) _ j hj2, List.sum_range_succ']
      have e1 : ∀ l : Nat, i + 1 + (l : Int) = i + ((l + 1 : Nat) : Int) := by
        intro l; push_cast; ring
      simp only [e1]
      congr 2
      simp only [Nat.cast_zero, add_zero]
      ring

theorem sum_range_counts (q m : Nat) (j : Nat) :
    ((List.range j).map
      (fun l : Nat => (if (0 : Int) + (l : Int) < (m : Int) then (q : Int) + 1 else (q : Int)) * 2)).sum
      = 2 * ((j * q + min j m : Nat) : Int) := by
  induction j with
  | zero => simp
  | succ j ih =>
    rw [List.sum_range_succ, ih]
    have hmin : min (j + 1) m = min j m + (if j < m then 1 else 0) := by
      split_ifs with h <;> omega
    rw [hmin]
    split_ifs with h1 h2 h2
    · push_cast; ring
    · exact absurd (by omega) h2
    · exact absurd (by omega) h1
    · push_cast; ring

theorem scatterLayoutExact_getElem? (n p r : Nat) (hr : r < p) :
    (scatterLayoutExact (n : Int) (p : Int))[r]? =
      some (2 * pointsForMe (n : Int) (p : Int) (r : Int),
        2 * ((r * (n / p) + min r (n % p) : Nat) : Int)) := by
  unfold scatterLayoutExact
  rw [scatterLoopExact_getElem? _ _ _ _ _ r (by simpa using hr)]
  rw [pointsPerProc_natCast, remainder_natCast, sum_range_counts, pointsForMe_natCast]
  congr 2
  · split_ifs with h1 h2 h2
    · push_cast; ring
    · exact absurd (by omega) h2
    · exact absurd (by omega) h1
    · push_cast; ring
  · simp

theorem length_scatterLayoutExact (N P : Int) : (scatterLayoutExact N P).length = P.toNat := by
  simp [scatterLayoutExact, length_scatterLoopExact]

theorem countsExact_getElem? (n p r : Nat) (hr : r < p) :
    (countsExact (n : Int) (p : Int))[r]? = some (2 * pointsForMe (n : Int) (p : Int) (r : Int)) := by
  simp [countsExact, scatterLayoutExact_getElem? n p r hr]

theorem displsExact_getElem? (n p r : Nat) (hr : r < p) :
    (displsExact (n : Int) (p : Int))[r]? =
      some (2 * ((r * (n / p) + min r (n % p) : Nat) : Int)) := by
  simp [displsExact, scatterLayoutExact_getElem? n p r hr]

theorem countsExact_eq_map (n p : Nat) :
    countsExact (n : Int) (p : Int)
      = (List.range p).map (fun r : Nat => 2 * pointsForMe (n : Int) (p : Int) (r : Int)) := by
  apply List.ext_getElem?
  intro r
  by_cases hr : r < p
  · rw [countsExact_getElem? n p r hr]
    simp [hr]
  · have h1 : (countsExact (n : Int) (p : Int)).length ≤ r := by
      simp [countsExact, length_scatterLayoutExact]; omega
    rw [List.getElem?_eq_none h1, List.getElem?_eq_none (by simpa using hr)]

theorem sum_pointsForMe (n p : Nat) (hp : 0 < p) :
    ((List.range p).map (fun r : Nat => pointsForMe (n : Int) (p : Int) (r : Int))).sum
      = (n : Int) := by
  simp only [pointsForMe_natCast]
  have h := sum_range_share n p hp
  have h2 : ((List.range p).map
      (fun r : Nat => ((n / p + (if r < n % p then 1 else 0) : Nat) : Int))).sum
      = ((((List.range p).map (fun r => n / p + (if r < n % p then 1 else 0))).sum : Nat) : Int) := by
    generalize List.range p = l
    induction l with
    | nil => simp
    | cons a l ih => simp only [List.map_cons, List.sum_cons, ih]; push_cast; rfl
  rw [h2, h]

/-- Read over the mathematical integers: for `N ≥ 0` and `P ≥ 1` the values of
`pointsForMe` over the ranks `0 .. P - 1` sum to `N`, and `countsExact` sums to
`2 * N`. -/
theorem partition_counts_sum_exact (N P : Int) (hN : 0 ≤ N) (hP : 1 ≤ P) :
    ((List.range P.toNat).map (fun r : Nat => pointsForMe N P (r : Int))).sum = N
      ∧ (countsExact N P).sum = 2 * N := by
  obtain ⟨n, rfl⟩ := Int.eq_ofNat_of_zero_le hN
  obtain ⟨p, rfl⟩ := Int.eq_ofNat_of_zero_le (by omega : (0 : Int) ≤ P)
  have hp : 0 < p := by omega
  refine ⟨by simpa using sum_pointsForMe n p hp, ?_⟩
  rw [countsExact_eq_map, List.sum_map_mul_left, sum_pointsForMe n p hp]

theorem length_flattenPoints (l : List Point) : (flattenPoints l).length = 2 * l.length := by
  induction l with
  | nil => rfl
  | cons a l ih => simp only [flattenPoints, List.length_cons, ih]; omega

theorem drop_flattenPoints (k : Nat) :
    ∀ l : List Point, (flattenPoints l).drop (2 * k) = flattenPoints (l.drop k) := by
  induction k with
  | zero => intro l; simp
  | succ k ih =>
    intro l
    cases l with
    | nil => simp [flattenPoints]
    | cons a l =>
      have e : 2 * (k + 1) = 2 * k + 1 + 1 := by ring
      rw [e]
      simp only [flattenPoints, List.drop_succ_cons, ih]

theorem take_flattenPoints (k : Nat) :
    ∀ l : List Point, (flattenPoints l).take (2 * k) = flattenPoints (l.take k) := by
  induction k with
  | zero => intro l; simp [flattenPoints]
  | succ k ih =>
    intro l
    cases l with
    | nil => simp [flattenPoints]
    | cons a l =>
      have e : 2 * (k + 1) = 2 * k + 1 + 1 := by ring
      rw [e]
      simp only [flattenPoints, List.take_succ_cons, ih]

theorem unflatten_flattenPoints (l : List Point) : unflattenPoints (flattenPoints l) = l := by
  induction l with
  | nil => rfl
  | cons a l ih => simp only [flattenPoints, unflattenPoints, ih]

/-- The shard of rank `r + 1` starts where the shard of rank `r` ends. -/
theorem shardStart_succ (n p r : Nat) :
    (r + 1) * (n / p) + min (r + 1) (n % p)
      = r * (n / p) + min r (n % p) + (n / p + (if r < n % p then 1 else 0)) := by
  have hmin : min (r + 1) (n % p) = min r (n % p) + (if r < n % p then 1 else 0) := by
    split_ifs with h <;> omega
  rw [hmin]; ring

theorem scattervSlice_eq (buf : List ℚ) (n p r : Nat) (hr : r < p) :
    scattervSlice buf (countsExact (n : Int) (p : Int)) (displsExact (n : Int) (p : Int)) r
      = (buf.drop (2 * (r * (n / p) + min r (n % p)))).take
          (2 * (n / p + (if r < n % p then 1 else 0))) := by
  unfold scattervSlice
  rw [List.getD_eq_getElem?_getD, List.getD_eq_getElem?_getD, countsExact_getElem? n p r hr,
    displsExact_getElem? n p r hr, pointsForMe_natCast]
  simp only [Option.getD_some]
  have e1 : ∀ a : Nat, (2 * (a : Int)).toNat = 2 * a := by intro a; omega
  rw [e1, e1]

theorem myPoints_eq (pts : List Point) (p r : Nat) (hr : r < p) :
    myPoints pts (p : Int) r
      = (pts.drop (r * (pts.length / p) + min r (pts.length % p))).take
          (pts.length / p + (if r < pts.length % p then 1 else 0)) := by
  unfold myPoints
  rw [scattervSlice_eq _ _ _ _ hr, drop_flattenPoints, take_flattenPoints,
    unflatten_flattenPoints]

theorem flatMap_myPoints_upTo (pts : List Point) (p : Nat) :
    ∀ k : Nat, k ≤ p →
      (List.range k).flatMap (fun r => myPoints pts (p : Int) r)
        = pts.take (k * (pts.length / p) + min k (pts.length % p)) := by
  intro k
  induction k with
  | zero => intro _; simp
  | succ k ih =>
    intro hk
    rw [List.range_succ, List.flatMap_append, ih (by omega)]
    simp only [List.flatMap_cons, List.flatMap_nil, List.append_nil]
    rw [myPoints_eq pts p k (by omega), shardStart_succ]
    generalize k * (pts.length / p) + min k (pts.length % p) = a
    generalize pts.length / p + (if k < pts.length % p then 1 else 0) = b
    exact (List.take_add pts a b).symm

theorem shardStart_last (n p : Nat) (hp : 0 < p) :
    p * (n / p) + min p (n % p) = n := by
  have h2 : n % p < p := Nat.mod_lt _ hp
  have h3 := Nat.div_add_mod n p
  rw [min_eq_right h2.le]
  exact h3

theorem flatMap_myPoints (pts : List Point) (p : Nat) (hp : 0 < p) :
    (List.range p).flatMap (fun r => myPoints pts (p : Int) r) = pts := by
  rw [flatMap_myPoints_upTo pts p p le_rfl, shardStart_last _ _ hp, List.take_of_length_le le_rfl]

theorem wrapInt_of_range (z : Int) (h0 : -2147483648 ≤ z) (h1 : z ≤ 2147483647) :
    wrapInt z = z := by
  unfold wrapInt
  omega

theorem sum_fst_scatterLoopExact_nonneg (ppp rem : Int) (hppp : 0 ≤ ppp) :
    ∀ (k : Nat) (i off : Int), 0 ≤ ((scatterLoopExact ppp rem k i off).map Prod.fst).sum := by
  intro k
  induction k with
  | zero => intro i off; simp [scatterLoopExact]
  | succ k ih =>
    intro i off
    simp only [scatterLoopExact, List.map_cons, List.sum_cons]
    have h := ih (i + 1) (off + (if i < rem then ppp + 1 else ppp) * 2)
    split_ifs at h ⊢ <;> omega

/-- While the running offset stays in the range of `int`, the loop in `int`
arithmetic computes the values of the loop over the mathematical integers. -/
theorem scatterLoop_eq_exact (ppp rem : Int) (hppp : 0 ≤ ppp) :
    ∀ (k : Nat) (i off : Int), 0 ≤ off →
      off + ((scatterLoopExact ppp rem k i off).map Prod.fst).sum ≤ 2147483647 →
      scatterLoop ppp rem k i off = scatterLoopExact ppp rem k i off := by
  intro k
  induction k with
  | zero => intro i off _ _; rfl
  | succ k ih =>
    intro i off hoff hsum
    simp only [scatterLoopExact, List.map_cons, List.sum_cons] at hsum
    have htail := sum_fst_scatterLoopExact_nonneg ppp rem hppp k (i + 1)
      (off + (if i < rem then ppp + 1 else ppp) * 2)
    by_cases hi : i < rem
    · simp only [if_pos hi] at hsum htail
      have w1 : wrapInt (ppp + 1) = ppp + 1 := wrapInt_of_range _ (by omega) (by omega)
      have w2 : wrapInt ((ppp + 1) * 2) = (ppp + 1) * 2 := wrapInt_of_range _ (by omega) (by omega)
      have w3 : wrapInt (off + (ppp + 1) * 2) = off + (ppp + 1) * 2 :=
        wrapInt_of_range _ (by omega) (by omega)
      simp only [scatterLoop, scatterLoopExact, if_pos hi, w1, w2, w3]
      rw [ih (i + 1) (off + (ppp + 1) * 2) (by omega) (by omega)]
    · simp only [if_neg hi] at hsum htail
      have w2 : wrapInt (ppp * 2) = ppp * 2 := wrapInt_of_range _ (by omega) (by omega)
      have w3 : wrapInt (off + ppp * 2) = off + ppp * 2 :=
        wrapInt_of_range _ (by omega) (by omega)
      simp only [scatterLoop, scatterLoopExact, if_neg hi, w2, w3]
      rw [ih (i + 1) (off + ppp * 2) (by omega) (by omega)]

theorem scatterLayout_eq_exact (N P : Int) (hN : 0 ≤ N) (hP : 1 ≤ P)
    (h2N : 2 * N ≤ 2147483647) : scatterLayout N P = scatterLayoutExact N P := by
  have hsum := (partition_counts_sum_exact N P hN hP).2
  unfold countsExact scatterLayoutExact at hsum
  unfold scatterLayout scatterLayoutExact
  apply scatterLoop_eq_exact _ _ _ _ _ _ le_rfl
  · rw [hsum]; omega
  · obtain ⟨n, rfl⟩ := Int.eq_ofNat_of_zero_le hN
    obtain ⟨p, rfl⟩ := Int.eq_ofNat_of_zero_le (by omega : (0 : Int) ≤ P)
    rw [pointsPerProc_natCast]
    exact Int.ofNat_nonneg _

theorem counts_eq_exact (N P : Int) (hN : 0 ≤ N) (hP : 1 ≤ P) (h2N : 2 * N ≤ 2147483647) :
    counts N P = countsExact N P := by
  unfold counts countsExact
  rw [scatterLayout_eq_exact N P hN hP h2N]

theorem displs_eq_exact (N P : Int) (hN : 0 ≤ N) (hP : 1 ≤ P) (h2N : 2 * N ≤ 2147483647) :
    displs N P = displsExact N P := by
  unfold displs displsExact
  rw [scatterLayout_eq_exact N P hN hP h2N]

/-- While `2 * N` fits an `int`, the shard of rank `r` is the slice that the
`int` arrays `counts` and `displs` describe. -/
theorem myPoints_eq_scatterv (pts : List Point) (P : Int) (r : Nat) (hP : 1 ≤ P)
    (h2N : 2 * (pts.length : Int) ≤ 2147483647) :
    myPoints pts P r
      = unflattenPoints
          (scattervSlice (flattenPoints pts) (counts pts.length P) (displs pts.length P) r) := by
  unfold myPoints
  rw [counts_eq_exact _ P (Int.ofNat_nonneg _) hP h2N,
    displs_eq_exact _ P (Int.ofNat_nonneg _) hP h2N]

theorem getD_set_add (buf : List ℚ) (j : Nat) (v : ℚ) (hj : j < buf.length) (k : Nat) :
    (buf.set j (buf.getD j 0 + v)).getD k 0 = buf.getD k 0 + (if k = j then v else 0) := by
  simp only [List.getD_eq_getElem?_getD]
  by_cases h : k = j
  · subst h
    simp [List.getElem?_set_self hj]
  · rw [List.getElem?_set_ne (fun e => h e.symm)]
    simp [h]

theorem addAt_spec (buf : List ℚ) (idx : Int) (v : ℚ) (h0 : 0 ≤ idx)
    (h1 : idx < (buf.length : Int)) :
    ∃ out, addAt buf idx v = some out ∧ out.length = buf.length
      ∧ ∀ k : Nat, out.getD k 0 = buf.getD k 0 + (if (k : Int) = idx then v else 0) := by
  refine ⟨buf.set idx.toNat (buf.getD idx.toNat 0 + v), ?_, by simp, ?_⟩
  · simp [addAt, h0, h1]
  · intro k
    rw [getD_set_add buf idx.toNat v (by omega) k]
    have e : (k = idx.toNat) ↔ ((k : Int) = idx) := by omega
    simp only [e]

theorem readAt_spec (buf : List ℚ) (idx : Int) (h0 : 0 ≤ idx) (h1 : idx < (buf.length : Int)) :
    readAt buf idx = some (buf.getD idx.toNat 0) := by
  have h2 : idx.toNat < buf.length := by omega
  simp [readAt, h0, List.getD_eq_getElem?_getD, List.getElem?_eq_getElem h2]

theorem eq_of_getD_eq (a b : List ℚ) (hlen : a.length = b.length)
    (h : ∀ k : Nat, k < a.length → a.getD k 0 = b.getD k 0) : a = b := by
  apply List.ext_getElem hlen
  intro k h1 h2
  have := h k h1
  simpa [List.getD_eq_getElem?_getD, List.getElem?_eq_getElem h1,
    List.getElem?_eq_getElem h2] using this

theorem getD_callocZero (n : Int) (k : Nat) : (callocZero n).getD k 0 = 0 := by
  simp only [callocZero, List.getD_eq_getElem?_getD, List.getElem?_replicate]
  split_ifs <;> rfl

theorem length_callocZero (n : Int) : (callocZero n).length = n.toNat := by
  simp [callocZero]

/-! ## The particle loop -/

theorem depositPoint_spec (g : Globals) (t : Int) (tpm : List ℚ) (p : Point)
    (hb : pointInBounds g t p tpm.length) :
    ∃ out, depositPoint g t tpm p = some out ∧ out.length = tpm.length
      ∧ ∀ k : Nat, out.getD k 0
          = tpm.getD k 0 + kernelAt g p ((k : Int) - t * g.gridWidth * g.gridHeight) := by
  obtain ⟨⟨h1a, h1b⟩, ⟨h2a, h2b⟩, ⟨h3a, h3b⟩, ⟨h4a, h4b⟩⟩ := hb
  obtain ⟨t1, e1, l1, g1⟩ := addAt_spec tpm _ (area1 g p * weight) h1a h1b
  obtain ⟨t2, e2, l2, g2⟩ := addAt_spec t1 _ (area2 g p * weight) h2a (by rw [l1]; exact h2b)
  obtain ⟨t3, e3, l3, g3⟩ := addAt_spec t2 _ (area3 g p * weight) h3a (by rw [l2, l1]; exact h3b)
  obtain ⟨t4, e4, l4, g4⟩ := addAt_spec t3 _ (area4 g p * weight) h4a
    (by rw [l3, l2, l1]; exact h4b)
  refine ⟨t4, ?_, by rw [l4, l3, l2, l1], ?_⟩
  · simp only [depositPoint, e1, e2, e3, e4]
  · intro k
    rw [g4, g3, g2, g1, kernelAt]
    have c1 : ((k : Int) = t * g.gridWidth * g.gridHeight + p1 g p)
        ↔ (p1 g p = (k : Int) - t * g.gridWidth * g.gridHeight) := by omega
    have c2 : ((k : Int) = t * g.gridWidth * g.gridHeight + p2 g p)
        ↔ (p2 g p = (k : Int) - t * g.gridWidth * g.gridHeight) := by omega
    have c3 : ((k : Int) = t * g.gridWidth * g.gridHeight + p3 g p)
        ↔ (p3 g p = (k : Int) - t * g.gridWidth * g.gridHeight) := by omega
    have c4 : ((k : Int) = t * g.gridWidth * g.gridHeight + p4 g p)
        ↔ (p4 g p = (k : Int) - t * g.gridWidth * g.gridHeight) := by omega
    simp only [c1, c2, c3, c4]
    ring

theorem depositLoop_spec (g : Globals) (sched : Nat → Int) :
    ∀ (ps : List Point) (i : Nat) (tpm : List ℚ),
      loopInBounds g sched tpm.length ps i →
      ∃ out, depositLoop g sched ps i tpm = some out ∧ out.length = tpm.length
        ∧ ∀ k : Nat, out.getD k 0 = tpm.getD k 0 + slotSum g sched ps i (k : Int) := by
  intro ps
  induction ps with
  | nil =>
    intro i tpm _
    exact ⟨tpm, rfl, rfl, fun k => by simp [slotSum]⟩
  | cons p ps ih =>
    intro i tpm hb
    obtain ⟨hb1, hb2⟩ := hb
    obtain ⟨t1, e1, l1, g1⟩ := depositPoint_spec g (sched i) tpm p hb1
    obtain ⟨t2, e2, l2, g2⟩ := ih (i + 1) t1 (by rw [l1]; exact hb2)
    refine ⟨t2, ?_, by rw [l2, l1], ?_⟩
    · simp only [depositLoop, e1, e2]
    · intro k
      rw [g2, g1, slotSum]
      ring

/-! ## The cell loop -/

theorem sumThreads_spec (g : Globals) (tpm : List ℚ) (i : Int) :
    ∀ (k : Nat) (t : Int) (mesh : List ℚ), 0 ≤ i → i < (mesh.length : Int) →
      (∀ l : Nat, l < k →
        0 ≤ (t + (l : Int)) * g.gridWidth * g.gridHeight + i
          ∧ (t + (l : Int)) * g.gridWidth * g.gridHeight + i < (tpm.length : Int)) →
      ∃ out, sumThreads g tpm i k t mesh = some out ∧ out.length = mesh.length
        ∧ ∀ j : Nat, out.getD j 0 = mesh.getD j 0
            + (if (j : Int) = i then
                ((List.range k).map (fun l : Nat =>
                  tpm.getD ((t + (l : Int)) * g.gridWidth * g.gridHeight + i).toNat 0)).sum
              else 0) := by
  intro k
  induction k with
  | zero =>
    intro t mesh _ _ _
    exact ⟨mesh, rfl, rfl, fun j => by simp⟩
  | succ k ih =>
    intro t mesh h0 h1 hr
    have hr0 := hr 0 (by omega)
    simp only [Nat.cast_zero, add_zero] at hr0
    obtain ⟨m1, e1, l1, g1⟩ := addAt_spec mesh i
      (tpm.getD (t * g.gridWidth * g.gridHeight + i).toNat 0) h0 h1
    have hr1 : ∀ l : Nat, l < k →
        0 ≤ (t + 1 + (l : Int)) * g.gridWidth * g.gridHeight + i
          ∧ (t + 1 + (l : Int)) * g.gridWidth * g.gridHeight + i < (tpm.length : Int) := by
      intro l hl
      have := hr (l + 1) (by omega)
      have e : t + ((l + 1 : Nat) : Int) = t + 1 + (l : Int) := by push_cast; ring
      rwa [e] at this
    obtain ⟨m2, e2, l2, g2⟩ := ih (t + 1) m1 h0 (by rw [l1]; exact h1) hr1
    refine ⟨m2, ?_, by rw [l2, l1], ?_⟩
    · simp only [sumThreads, readAt_spec tpm _ hr0.1 hr0.2, e1, e2]
    · intro j
      rw [g2, g1, List.sum_range_succ']
      have e : ∀ l : Nat, t + ((l + 1 : Nat) : Int) = t + 1 + (l : Int) := by
        intro l; push_cast; ring
      simp only [e, Nat.cast_zero, add_zero]
      split_ifs <;> ring

theorem reduceLoop_spec (g : Globals) (tpm : List ℚ) :
    ∀ (k : Nat) (i : Nat) (mesh : List ℚ), i + k ≤ mesh.length →
      (∀ c : Nat, i ≤ c → c < i + k → ∀ l : Nat, l < g.numThreads.toNat →
        0 ≤ (l : Int) * g.gridWidth * g.gridHeight + (c : Int)
          ∧ (l : Int) * g.gridWidth * g.gridHeight + (c : Int) < (tpm.length : Int)) →
      ∃ out, reduceLoop g tpm k (i : Int) mesh = some out ∧ out.length = mesh.length
        ∧ ∀ j : Nat, out.getD j 0 = mesh.getD j 0
            + (if i ≤ j ∧ j < i + k then
                ((List.range g.numThreads.toNat).map (fun l : Nat =>
                  tpm.getD ((l : Int) * g.gridWidth * g.gridHeight + (j : Int)).toNat 0)).sum
              else 0) := by
  intro k
  induction k with
  | zero =>
    intro i mesh _ _
    refine ⟨mesh, rfl, rfl, fun j => ?_⟩
    have : ¬ (i ≤ j ∧ j < i + 0) := by omega
    simp [this]
  | succ k ih =>
    intro i mesh hlen hr
    have hr0 : ∀ l : Nat, l < g.numThreads.toNat →
        0 ≤ (0 + (l : Int)) * g.gridWidth * g.gridHeight + (i : Int)
          ∧ (0 + (l : Int)) * g.gridWidth * g.gridHeight + (i : Int) < (tpm.length : Int) := by
      intro l hl
      rw [zero_add]
      exact hr i le_rfl (by omega) l hl
    obtain ⟨m1, e1, l1, g1⟩ := sumThreads_spec g tpm (i : Int) g.numThreads.toNat 0 mesh
      (by omega) (by omega) hr0
    obtain ⟨m2, e2, l2, g2⟩ := ih (i + 1) m1 (by rw [l1]; omega)
      (fun c hc1 hc2 l hl => hr c (by omega) (by omega) l hl)
    refine ⟨m2, ?_, by rw [l2, l1], ?_⟩
    · have e : ((i + 1 : Nat) : Int) = (i : Int) + 1 := by push_cast; rfl
      rw [e] at e2
      simp only [reduceLoop, e1, e2]
    · intro j
      rw [g2, g1]
      simp only [zero_add]
      by_cases hj : j = i
      · subst hj
        have c1 : ¬ (j + 1 ≤ j ∧ j < j + 1 + k) := by omega
        have c2 : (j ≤ j ∧ j < j + (k + 1)) := by omega
        simp [c1, c2]
      · have c0 : ¬ ((j : Int) = (i : Int)) := by omega
        have c1 : (i + 1 ≤ j ∧ j < i + 1 + k) ↔ (i ≤ j ∧ j < i + (k + 1)) := by omega
        simp only [c0, c1, if_false, add_zero]

/-! ## The mesh of `cloudInACellInterpolation` is the reference mesh -/

theorem sum_range_single (n : Nat) (f : Nat → ℚ) (s : Nat) (hs : s < n)
    (h : ∀ t, t < n → t ≠ s → f t = 0) : ((List.range n).map f).sum = f s := by
  induction n with
  | zero => omega
  | succ n ih =>
    rw [List.sum_range_succ]
    by_cases hsn : s = n
    · subst hsn
      have hz : ((List.range s).map f).sum = 0 := by
        apply List.sum_eq_zero
        intro x hx
        obtain ⟨t, ht, rfl⟩ := List.mem_map.1 hx
        have := List.mem_range.1 ht
        exact h t (by omega) (by omega)
      rw [hz, zero_add]
    · rw [ih (by omega) (fun t ht hne => h t (by omega) hne), h n (by omega) (fun e => hsn e.symm),
        add_zero]

theorem kernelAt_eq_zero (g : Globals) (p : Point) (i : Int) (hin : indicesInMesh g p)
    (hi : i < 0 ∨ g.gridWidth * g.gridHeight ≤ i) : kernelAt g p i = 0 := by
  obtain ⟨⟨h1a, h1b⟩, ⟨h2a, h2b⟩, ⟨h3a, h3b⟩, ⟨h4a, h4b⟩⟩ := hin
  have c1 : ¬ (p1 g p = i) := by omega
  have c2 : ¬ (p2 g p = i) := by omega
  have c3 : ¬ (p3 g p = i) := by omega
  have c4 : ¬ (p4 g p = i) := by omega
  simp [kernelAt, c1, c2, c3, c4]

theorem sum_kernelAt_threads (g : Globals) (p : Point) (s : Int) (c : Nat)
    (hin : indicesInMesh g p) (hs0 : 0 ≤ s) (hs1 : s < g.numThreads)
    (hc : (c : Int) < g.gridWidth * g.gridHeight) :
    ((List.range g.numThreads.toNat).map (fun l : Nat =>
        kernelAt g p ((l : Int) * g.gridWidth * g.gridHeight + (c : Int)
          - s * g.gridWidth * g.gridHeight))).sum
      = kernelAt g p (c : Int) := by
  rw [sum_range_single _ _ s.toNat (by omega)]
  · have e : ((s.toNat : Nat) : Int) = s := Int.toNat_of_nonneg hs0
    rw [e]
    congr 1
    ring
  · intro t _ hne
    apply kernelAt_eq_zero g p _ hin
    have hne2 : (t : Int) ≠ s := by omega
    have hG : 0 < g.gridWidth * g.gridHeight := by omega
    have e : (t : Int) * g.gridWidth * g.gridHeight + (c : Int) - s * g.gridWidth * g.gridHeight
        = ((t : Int) - s) * (g.gridWidth * g.gridHeight) + (c : Int) := by ring
    rw [e]
    rcases lt_or_gt_of_ne hne2 with hlt | hgt
    · left
      have h1 : ((t : Int) - s) * (g.gridWidth * g.gridHeight)
          ≤ (-1) * (g.gridWidth * g.gridHeight) :=
        mul_le_mul_of_nonneg_right (by omega) hG.le
      omega
    · right
      have h1 : 1 * (g.gridWidth * g.gridHeight)
          ≤ ((t : Int) - s) * (g.gridWidth * g.gridHeight) :=
        mul_le_mul_of_nonneg_right (by omega) hG.le
      omega

theorem sum_slotSum (g : Globals) (sched : Nat → Int) (c : Nat)
    (hc : (c : Int) < g.gridWidth * g.gridHeight) :
    ∀ (ps : List Point) (i : Nat), (∀ p ∈ ps, indicesInMesh g p) →
      (∀ j, i ≤ j → j < i + ps.length → 0 ≤ sched j ∧ sched j < g.numThreads) →
      ((List.range g.numThreads.toNat).map (fun l : Nat =>
          slotSum g sched ps i ((l : Int) * g.gridWidth * g.gridHeight + (c : Int)))).sum
        = (ps.map (fun p => kernelAt g p (c : Int))).sum := by
  intro ps
  induction ps with
  | nil => intro i _ _; simp [slotSum]
  | cons p ps ih =>
    intro i hin hs
    simp only [slotSum, List.sum_map_add, List.map_cons, List.sum_cons]
    have hsi := hs i le_rfl (by simp)
    rw [sum_kernelAt_threads g p (sched i) c (hin p (List.mem_cons_self _ _)) hsi.1 hsi.2 hc,
      ih (i + 1) (fun q hq => hin q (List.mem_cons_of_mem _ hq))
        (fun j h1 h2 => hs j (by omega) (by simp only [List.length_cons]; omega))]

theorem loopInBounds_of_valid (g : Globals) (sched : Nat → Int) (hT : 0 ≤ g.numThreads)
    (hG : 0 ≤ g.gridWidth * g.gridHeight) :
    ∀ (ps : List Point) (i : Nat), (∀ p ∈ ps, indicesInMesh g p) →
      (∀ j, i ≤ j → j < i + ps.length → 0 ≤ sched j ∧ sched j < g.numThreads) →
      loopInBounds g sched (g.numThreads * g.gridWidth * g.gridHeight).toNat ps i := by
  intro ps
  induction ps with
  | nil => intro i _ _; trivial
  | cons p ps ih =>
    intro i hin hs
    refine ⟨?_, ih (i + 1) (fun q hq => hin q (List.mem_cons_of_mem _ hq))
        (fun j h1 h2 => hs j (by omega) (by simp only [List.length_cons]; omega))⟩
    obtain ⟨hs0, hs1⟩ := hs i le_rfl (by simp)
    obtain ⟨⟨h1a, h1b⟩, ⟨h2a, h2b⟩, ⟨h3a, h3b⟩, ⟨h4a, h4b⟩⟩ := hin p (List.mem_cons_self _ _)
    have hlo : 0 ≤ sched i * (g.gridWidth * g.gridHeight) := mul_nonneg hs0 hG
    have hhi : (sched i + 1) * (g.gridWidth * g.gridHeight)
        ≤ g.numThreads * (g.gridWidth * g.gridHeight) :=
      mul_le_mul_of_nonneg_right (by omega) hG
    have hnn : 0 ≤ g.numThreads * (g.gridWidth * g.gridHeight) := mul_nonneg hT hG
    have e1 : sched i * g.gridWidth * g.gridHeight = sched i * (g.gridWidth * g.gridHeight) := by
      ring
    have e2 : g.numThreads * g.gridWidth * g.gridHeight
        = g.numThreads * (g.gridWidth * g.gridHeight) := by ring
    have e3 : (sched i + 1) * (g.gridWidth * g.gridHeight)
        = sched i * (g.gridWidth * g.gridHeight) + g.gridWidth * g.gridHeight := by ring
    unfold pointInBounds
    rw [e1, e2, Int.toNat_of_nonneg hnn]
    rw [e3] at hhi
    refine ⟨⟨?_, ?_⟩, ⟨?_, ?_⟩, ⟨?_, ?_⟩, ⟨?_, ?_⟩⟩ <;> omega

theorem memsetZero_exact (mesh : List ℚ) (n : Int) (hn : 0 ≤ n) (hlen : mesh.length = n.toNat) :
    memsetZero mesh n = some (callocZero n) := by
  have h1 : n ≤ (mesh.length : Int) := by omega
  have h2 : mesh.drop n.toNat = [] := List.drop_eq_nil_of_le (by omega)
  simp [memsetZero, callocZero, hn, h1, h2]

theorem length_referenceMesh (g : Globals) (points : List Point) :
    (referenceMesh g points).length = (g.gridWidth * g.gridHeight).toNat := by
  simp [referenceMesh]

theorem getD_referenceMesh (g : Globals) (points : List Point) (j : Nat)
    (hj : j < (g.gridWidth * g.gridHeight).toNat) :
    (referenceMesh g points).getD j 0 = (points.map (fun p => kernelAt g p (j : Int))).sum := by
  simp [referenceMesh, List.getD_eq_getElem?_getD, List.getElem?_map, List.getElem?_range hj]

/-- When every particle has its four node indices in the mesh and every
iteration runs on a thread of the team, `cloudInACellInterpolation` returns the
reference mesh. -/
theorem cloud_eq_reference (g : Globals) (sched : Nat → Int) (mesh : List ℚ)
    (points : List Point) (hG : 0 ≤ g.gridWidth * g.gridHeight) (hT : 0 ≤ g.numThreads)
    (hlen : mesh.length = (g.gridWidth * g.gridHeight).toNat)
    (hin : ∀ p ∈ points, indicesInMesh g p) (hs : validSched g sched points.length) :
    cloudInACellInterpolation g sched mesh points = some (referenceMesh g points) := by
  have hs2 : ∀ j, 0 ≤ j → j < 0 + points.length → 0 ≤ sched j ∧ sched j < g.numThreads :=
    fun j _ h2 => hs j (by omega)
  have hnn : 0 ≤ g.numThreads * (g.gridWidth * g.gridHeight) := mul_nonneg hT hG
  have e2 : g.numThreads * g.gridWidth * g.gridHeight
      = g.numThreads * (g.gridWidth * g.gridHeight) := by ring
  have hb := loopInBounds_of_valid g sched hT hG points 0 hin hs2
  rw [← length_callocZero] at hb
  obtain ⟨tpm, e1, l1, g1⟩ := depositLoop_spec g sched points 0 _ hb
  rw [length_callocZero, e2] at l1
  have hreads : ∀ c : Nat, 0 ≤ c → c < 0 + (g.gridWidth * g.gridHeight).toNat →
      ∀ l : Nat, l < g.numThreads.toNat →
        0 ≤ (l : Int) * g.gridWidth * g.gridHeight + (c : Int)
          ∧ (l : Int) * g.gridWidth * g.gridHeight + (c : Int) < (tpm.length : Int) := by
    intro c _ hc l hl
    have hlo : 0 ≤ (l : Int) * (g.gridWidth * g.gridHeight) := mul_nonneg (by omega) hG
    have hhi : ((l : Int) + 1) * (g.gridWidth * g.gridHeight)
        ≤ g.numThreads * (g.gridWidth * g.gridHeight) :=
      mul_le_mul_of_nonneg_right (by omega) hG
    have e3 : ((l : Int) + 1) * (g.gridWidth * g.gridHeight)
        = (l : Int) * (g.gridWidth * g.gridHeight) + g.gridWidth * g.gridHeight := by ring
    have e4 : (l : Int) * g.gridWidth * g.gridHeight = (l : Int) * (g.gridWidth * g.gridHeight) := by
      ring
    rw [e3] at hhi
    rw [e4, l1, Int.toNat_of_nonneg hnn]
    omega
  obtain ⟨out, e5, l5, g5⟩ := reduceLoop_spec g tpm (g.gridWidth * g.gridHeight).toNat 0
    (callocZero (g.gridWidth * g.gridHeight)) (by rw [length_callocZero]; omega)
    (by rw [length_callocZero] at *; exact hreads)
  have hout : out = referenceMesh g points := by
    apply eq_of_getD_eq
    · rw [l5, length_callocZero, length_referenceMesh]
    · intro j hj
      rw [l5, length_callocZero] at hj
      rw [g5, getD_callocZero, getD_referenceMesh g points j hj, zero_add]
      have c1 : (0 ≤ j ∧ j < 0 + (g.gridWidth * g.gridHeight).toNat) := by omega
      rw [if_pos c1]
      have hjG : (j : Int) < g.gridWidth * g.gridHeight := by omega
      rw [← sum_slotSum g sched j hjG points 0 hin hs2]
      congr 1
      apply List.map_congr_left
      intro l hl
      have hl2 := List.mem_range.1 hl
      have hr := hreads j (by omega) (by omega) l hl2
      rw [g1, getD_callocZero, zero_add, Int.toNat_of_nonneg hr.1]
  unfold cloudInACellInterpolation
  rw [memsetZero_exact mesh _ hG hlen]
  simp only [e1]
  simpa [hout] using e5

/-! ## Valid particles -/

theorem truncToInt_of_nonneg (q : ℚ) (hq : 0 ≤ q) : truncToInt q = ⌊q⌋ := by
  simp [truncToInt, hq]

/-- One coordinate of a valid particle: the cell index is the floor, it lies in
`[0, n)`, and the local offset lies in `[0, 1 / n)`. -/
theorem trunc_cell (n : Int) (x : ℚ) (hn : 1 ≤ n) (h0 : 0 ≤ x)
    (h1 : x < (n : ℚ) * (1 / (n : ℚ))) :
    truncToInt (x / (1 / (n : ℚ))) = ⌊x / (1 / (n : ℚ))⌋
      ∧ (0 ≤ truncToInt (x / (1 / (n : ℚ))) ∧ truncToInt (x / (1 / (n : ℚ))) < n)
      ∧ (0 ≤ x - (truncToInt (x / (1 / (n : ℚ))) : ℚ) * (1 / (n : ℚ))
        ∧ x - (truncToInt (x / (1 / (n : ℚ))) : ℚ) * (1 / (n : ℚ)) < 1 / (n : ℚ)) := by
  have hnq : (0 : ℚ) < (n : ℚ) := by exact_mod_cast (by omega : (0 : Int) < n)
  have hs : (0 : ℚ) < 1 / (n : ℚ) := by positivity
  have hx1 : x < 1 := by
    have e : (n : ℚ) * (1 / (n : ℚ)) = 1 := by field_simp
    rwa [e] at h1
  have hq0 : 0 ≤ x / (1 / (n : ℚ)) := div_nonneg h0 hs.le
  have hq1 : x / (1 / (n : ℚ)) < (n : ℚ) := by
    rw [div_lt_iff₀ hs]
    have e : (n : ℚ) * (1 / (n : ℚ)) = 1 := by field_simp
    rw [e]; exact hx1
  rw [truncToInt_of_nonneg _ hq0]
  refine ⟨rfl, ⟨Int.floor_nonneg.2 hq0, Int.floor_lt.2 hq1⟩, ?_, ?_⟩
  · have h := Int.floor_le (x / (1 / (n : ℚ)))
    rw [le_div_iff₀ hs] at h
    linarith
  · have h := Int.lt_floor_add_one (x / (1 / (n : ℚ)))
    rw [div_lt_iff₀ hs] at h
    linarith

theorem gridX_bounds (numX numY nt : Int) (p : Point) (hX : 1 ≤ numX)
    (hv : validPoint (setupGrid numX numY nt) p) :
    0 ≤ gridX (setupGrid numX numY nt) p ∧ gridX (setupGrid numX numY nt) p < numX :=
  (trunc_cell numX p.x hX hv.1.1 hv.1.2).2.1

theorem gridY_bounds (numX numY nt : Int) (p : Point) (hY : 1 ≤ numY)
    (hv : validPoint (setupGrid numX numY nt) p) :
    0 ≤ gridY (setupGrid numX numY nt) p ∧ gridY (setupGrid numX numY nt) p < numY :=
  (trunc_cell numY p.y hY hv.2.1 hv.2.2).2.1

theorem indicesInMesh_of_valid (numX numY nt : Int) (p : Point) (hX : 1 ≤ numX) (hY : 1 ≤ numY)
    (hv : validPoint (setupGrid numX numY nt) p) :
    indicesInMesh (setupGrid numX numY nt) p := by
  obtain ⟨hx0, hx1⟩ := gridX_bounds numX numY nt p hX hv
  obtain ⟨hy0, hy1⟩ := gridY_bounds numX numY nt p hY hv
  unfold indicesInMesh p1 p2 p3 p4
  generalize gridX (setupGrid numX numY nt) p = gx at hx0 hx1
  generalize gridY (setupGrid numX numY nt) p = gy at hy0 hy1
  show (0 ≤ gy * (numX + 1) + gx ∧ gy * (numX + 1) + gx < (numX + 1) * (numY + 1))
    ∧ (0 ≤ gy * (numX + 1) + (gx + 1) ∧ gy * (numX + 1) + (gx + 1) < (numX + 1) * (numY + 1))
    ∧ (0 ≤ (gy + 1) * (numX + 1) + gx ∧ (gy + 1) * (numX + 1) + gx < (numX + 1) * (numY + 1))
    ∧ (0 ≤ (gy + 1) * (numX + 1) + (gx + 1)
      ∧ (gy + 1) * (numX + 1) + (gx + 1) < (numX + 1) * (numY + 1))
  have h1 : 0 ≤ gy * (numX + 1) := mul_nonneg hy0 (by omega)
  have h2 : (gy + 1) * (numX + 1) ≤ numY * (numX + 1) :=
    mul_le_mul_of_nonneg_right (by omega) (by omega)
  have e1 : (gy + 1) * (numX + 1) = gy * (numX + 1) + (numX + 1) := by ring
  have e2 : (numX + 1) * (numY + 1) = numY * (numX + 1) + (numX + 1) := by ring
  rw [e1] at h2 ⊢
  rw [e2]
  refine ⟨⟨?_, ?_⟩, ⟨?_, ?_⟩, ⟨?_, ?_⟩, ⟨?_, ?_⟩⟩ <;> omega

theorem gridCells_pos (numX numY nt : Int) (hX : 1 ≤ numX) (hY : 1 ≤ numY) :
    0 < (setupGrid numX numY nt).gridWidth * (setupGrid numX numY nt).gridHeight := by
  show 0 < (numX + 1) * (numY + 1)
  exact mul_pos (by omega) (by omega)

/-- For a grid with `numX, numY ≥ 1`, a thread count `≥ 1`, valid particles and
a schedule inside the team, `cloudInACellInterpolation` returns the reference
mesh. -/
theorem cloud_valid (numX numY nt : Int) (sched : Nat → Int) (mesh : List ℚ)
    (points : List Point) (hX : 1 ≤ numX) (hY : 1 ≤ numY) (hT : 1 ≤ nt)
    (hlen : mesh.length
      = ((setupGrid numX numY nt).gridWidth * (setupGrid numX numY nt).gridHeight).toNat)
    (hv : ∀ p ∈ points, validPoint (setupGrid numX numY nt) p)
    (hs : validSched (setupGrid numX numY nt) sched points.length) :
    cloudInACellInterpolation (setupGrid numX numY nt) sched mesh points
      = some (referenceMesh (setupGrid numX numY nt) points) :=
  cloud_eq_reference _ sched mesh points (gridCells_pos numX numY nt hX hY).le
    (by show 0 ≤ nt; omega) hlen
    (fun p hp => indicesInMesh_of_valid numX numY nt p hX hY (hv p hp)) hs

/-! ## Conservation -/

theorem area_sum (g : Globals) (p : Point) :
    area1 g p + area2 g p + area3 g p + area4 g p = g.stepX * g.stepY := by
  unfold area1 area2 area3 area4
  ring

theorem sum_range_indicator_at (n : Nat) (q : Int) (a : ℚ) (h0 : 0 ≤ q) (h1 : q < (n : Int)) :
    ((List.range n).map (fun i : Nat => if q = (i : Int) then a else 0)).sum = a := by
  rw [sum_range_single n _ q.toNat (by omega)]
  · have e : ((q.toNat : Nat) : Int) = q := Int.toNat_of_nonneg h0
    simp [e]
  · intro t _ hne
    have : ¬ (q = (t : Int)) := by omega
    simp [this]

theorem sum_kernelAt_nodes (g : Globals) (p : Point) (hin : indicesInMesh g p) :
    ((List.range (g.gridWidth * g.gridHeight).toNat).map
        (fun i : Nat => kernelAt g p (i : Int))).sum
      = g.stepX * g.stepY := by
  obtain ⟨⟨h1a, h1b⟩, ⟨h2a, h2b⟩, ⟨h3a, h3b⟩, ⟨h4a, h4b⟩⟩ := hin
  have hn : ((g.gridWidth * g.gridHeight).toNat : Int) = g.gridWidth * g.gridHeight := by omega
  unfold kernelAt
  simp only [List.sum_map_add]
  rw [sum_range_indicator_at _ _ _ h1a (by omega), sum_range_indicator_at _ _ _ h2a (by omega),
    sum_range_indicator_at _ _ _ h3a (by omega), sum_range_indicator_at _ _ _ h4a (by omega),
    ← area_sum g p]
  simp [weight]

theorem sum_referenceMesh (g : Globals) :
    ∀ points : List Point, (∀ p ∈ points, indicesInMesh g p) →
      (referenceMesh g points).sum = (points.length : ℚ) * g.stepX * g.stepY := by
  intro points
  induction points with
  | nil => intro _; simp [referenceMesh]
  | cons p ps ih =>
    intro hin
    have ih2 := ih (fun q hq => hin q (List.mem_cons_of_mem _ hq))
    have h1 := sum_kernelAt_nodes g p (hin p (List.mem_cons_self _ _))
    unfold referenceMesh at ih2 ⊢
    simp only [List.map_cons, List.sum_cons, List.sum_map_add, List.length_cons]
    rw [ih2, h1]
    push_cast
    ring

/-- C3: with exact arithmetic, for every grid with `numX, numY ≥ 1`, every
thread count `≥ 1` (and every schedule inside the team) and every list of
valid particles, `cloudInACellInterpolation` returns a mesh of
`gridWidth * gridHeight` nodes whose sum over all nodes is
`(number of particles) * stepX * stepY`. -/
theorem mesh_total_conserved (numX numY nt : Int) (sched : Nat → Int) (mesh : List ℚ)
    (points : List Point) (hX : 1 ≤ numX) (hY : 1 ≤ numY) (hT : 1 ≤ nt)
    (hlen : mesh.length
      = ((setupGrid numX numY nt).gridWidth * (setupGrid numX numY nt).gridHeight).toNat)
    (hv : ∀ p ∈ points, validPoint (setupGrid numX numY nt) p)
    (hs : validSched (setupGrid numX numY nt) sched points.length) :
    ∃ out, cloudInACellInterpolation (setupGrid numX numY nt) sched mesh points = some out
      ∧ out.length
        = ((setupGrid numX numY nt).gridWidth * (setupGrid numX numY nt).gridHeight).toNat
      ∧ out.sum = (points.length : ℚ) * (setupGrid numX numY nt).stepX
          * (setupGrid numX numY nt).stepY :=
  ⟨_, cloud_valid numX numY nt sched mesh points hX hY hT hlen hv hs,
    length_referenceMesh _ _,
    sum_referenceMesh _ points
      (fun p hp => indicesInMesh_of_valid numX numY nt p hX hY (hv p hp))⟩

/-- C4: with exact arithmetic the four area weights computed in
`cloudInACellInterpolation` satisfy `area1 + area2 + area3 + area4 = stepX * stepY`;
this holds for every particle, in particular for every particle inside the
grid interior. -/
theorem areas_sum_eq_cell (g : Globals) (p : Point) :
    area1 g p + area2 g p + area3 g p + area4 g p = g.stepX * g.stepY :=
  area_sum g p

/-! ## Sample inputs -/

theorem samplePoints_valid (nt : Int) : ∀ p ∈ samplePoints, validPoint (setupGrid 2 2 nt) p := by
  intro p hp
  simp only [samplePoints, List.mem_cons, List.mem_singleton, List.not_mem_nil, or_false] at hp
  rcases hp with rfl | rfl | rfl | rfl <;>
    (simp only [validPoint, setupGrid]; norm_num)

theorem alternate_valid (numX numY : Int) (n : Nat) :
    validSched (setupGrid numX numY 2) alternate n := by
  intro i _
  show 0 ≤ ((i % 2 : Nat) : Int) ∧ ((i % 2 : Nat) : Int) < 2
  omega

theorem onThreadZero_valid (numX numY nt : Int) (hT : 1 ≤ nt) (n : Nat) :
    validSched (setupGrid numX numY nt) onThreadZero n := by
  intro i _
  show (0 : Int) ≤ 0 ∧ (0 : Int) < nt
  omega

theorem mesh_total_conserved_witness :
    (1 : Int) ≤ 2 ∧ (1 : Int) ≤ 2 ∧ (1 : Int) ≤ 2
      ∧ (callocZero 9).length
        = ((setupGrid 2 2 2).gridWidth * (setupGrid 2 2 2).gridHeight).toNat
      ∧ (∀ p ∈ samplePoints, validPoint (setupGrid 2 2 2) p)
      ∧ validSched (setupGrid 2 2 2) alternate samplePoints.length
      ∧ ∃ out, cloudInACellInterpolation (setupGrid 2 2 2) alternate (callocZero 9) samplePoints
            = some out
          ∧ out.length = ((setupGrid 2 2 2).gridWidth * (setupGrid 2 2 2).gridHeight).toNat
          ∧ out.sum = (samplePoints.length : ℚ) * (setupGrid 2 2 2).stepX
              * (setupGrid 2 2 2).stepY :=
  ⟨by decide, by decide, by decide, by decide, samplePoints_valid 2, alternate_valid 2 2 _,
    mesh_total_conserved 2 2 2 alternate (callocZero 9) samplePoints (by decide) (by decide)
      (by decide) (by decide) (samplePoints_valid 2) (alternate_valid 2 2 _)⟩

/-! ## One round on several ranks -/

theorem mapM_eq_some_map {α β : Type} (f : α → Option β) (h : α → β) (l : List α)
    (hf : ∀ x ∈ l, f x = some (h x)) : l.mapM f = some (l.map h) := by
  induction l with
  | nil => rfl
  | cons a l ih =>
    rw [List.mapM_cons, hf a (List.mem_cons_self _ _),
      ih (fun x hx => hf x (List.mem_cons_of_mem _ hx))]
    rfl

theorem sum_map_flatMap {α : Type} (l : List α) (f : α → List Point) (w : Point → ℚ) :
    ((l.flatMap f).map w).sum = (l.map (fun x => ((f x).map w).sum)).sum := by
  induction l with
  | nil => rfl
  | cons a l ih => simp [List.flatMap_cons, List.sum_append, ih]

theorem mem_of_mem_myPoints (pts : List Point) (p r : Nat) (hr : r < p) (q : Point)
    (hq : q ∈ myPoints pts (p : Int) r) : q ∈ pts := by
  rw [myPoints_eq pts p r hr] at hq
  exact List.mem_of_mem_drop (List.mem_of_mem_take hq)

theorem mpiReduceSum_referenceMesh (g : Globals) (pts : List Point) (p : Nat) (hp : 0 < p) :
    mpiReduceSum (g.gridWidth * g.gridHeight).toNat
        ((List.range p).map (fun r => referenceMesh g (myPoints pts (p : Int) r)))
      = referenceMesh g pts := by
  unfold mpiReduceSum
  conv_rhs => rw [referenceMesh, ← flatMap_myPoints pts p hp]
  apply List.map_congr_left
  intro i hi
  have hi2 := List.mem_range.1 hi
  rw [sum_map_flatMap, List.map_map]
  congr 1
  apply List.map_congr_left
  intro r _
  exact getD_referenceMesh g _ i hi2

/-- C5: with exact arithmetic, for `N ≥ 0` valid particles and `P ≥ 1` ranks,
the element-wise sum over the ranks of the local meshes that
`cloudInACellInterpolation` computes from the shards of the partition rule is
the mesh a single process computes from all `N` particles at once (and both
computations return a mesh). -/
theorem multi_process_equivalence (numX numY nt P : Int) (scheds : Nat → Nat → Int)
    (sched : Nat → Int) (points : List Point) (hX : 1 ≤ numX) (hY : 1 ≤ numY) (hT : 1 ≤ nt)
    (hP : 1 ≤ P) (hv : ∀ p ∈ points, validPoint (setupGrid numX numY nt) p)
    (hss : ∀ r : Nat, (r : Int) < P →
      validSched (setupGrid numX numY nt) (scheds r) (myPoints points P r).length)
    (hs : validSched (setupGrid numX numY nt) sched points.length) :
    globalMeshOfRound (setupGrid numX numY nt) scheds points P
        = cloudInACellInterpolation (setupGrid numX numY nt) sched
            (callocZero ((setupGrid numX numY nt).gridWidth * (setupGrid numX numY nt).gridHeight))
            points
      ∧ ∃ m, cloudInACellInterpolation (setupGrid numX numY nt) sched
            (callocZero ((setupGrid numX numY nt).gridWidth * (setupGrid numX numY nt).gridHeight))
            points = some m := by
  obtain ⟨p, rfl⟩ := Int.eq_ofNat_of_zero_le (by omega : (0 : Int) ≤ P)
  have hp : 0 < p := by omega
  have h1 := cloud_valid numX numY nt sched _ points hX hY hT (length_callocZero _) hv hs
  have h2 : ∀ r ∈ List.range p,
      cloudInACellInterpolation (setupGrid numX numY nt) (scheds r)
          (callocZero ((setupGrid numX numY nt).gridWidth * (setupGrid numX numY nt).gridHeight))
          (myPoints points (p : Int) r)
        = some (referenceMesh (setupGrid numX numY nt) (myPoints points (p : Int) r)) := by
    intro r hr
    have hr2 := List.mem_range.1 hr
    exact cloud_valid numX numY nt (scheds r) _ _ hX hY hT (length_callocZero _)
      (fun q hq => hv q (mem_of_mem_myPoints points p r hr2 q hq)) (hss r (by omega))
  refine ⟨?_, _, h1⟩
  rw [h1]
  unfold globalMeshOfRound
  rw [Int.toNat_ofNat, mapM_eq_some_map _ _ _ h2, Option.map_some',
    mpiReduceSum_referenceMesh _ points p hp]

theorem multi_process_equivalence_witness :
    (1 : Int) ≤ 2 ∧ (1 : Int) ≤ 2 ∧ (1 : Int) ≤ 2 ∧ (1 : Int) ≤ 2
      ∧ (∀ p ∈ samplePoints, validPoint (setupGrid 2 2 2) p)
      ∧ (∀ r : Nat, (r : Int) < 2 →
          validSched (setupGrid 2 2 2) alternate (myPoints samplePoints 2 r).length)
      ∧ validSched (setupGrid 2 2 2) onThreadZero samplePoints.length
      ∧ (globalMeshOfRound (setupGrid 2 2 2) (fun _ => alternate) samplePoints 2
          = cloudInACellInterpolation (setupGrid 2 2 2) onThreadZero
              (callocZero ((setupGrid 2 2 2).gridWidth * (setupGrid 2 2 2).gridHeight))
              samplePoints
        ∧ ∃ m, cloudInACellInterpolation (setupGrid 2 2 2) onThreadZero
              (callocZero ((setupGrid 2 2 2).gridWidth * (setupGrid 2 2 2).gridHeight))
              samplePoints = some m) :=
  ⟨by decide, by decide, by decide, by decide, samplePoints_valid 2,
    fun _ _ => alternate_valid 2 2 _, onThreadZero_valid 2 2 2 (by decide) _,
    multi_process_equivalence 2 2 2 2 (fun _ => alternate) onThreadZero samplePoints (by decide)
      (by decide) (by decide) (by decide) (samplePoints_valid 2)
      (fun _ _ => alternate_valid 2 2 _) (onThreadZero_valid 2 2 2 (by decide) _)⟩

/-! ## Independence of the thread count, the schedule and the particle order -/

theorem referenceMesh_numThreads (numX numY nt1 nt2 : Int) (points : List Point) :
    referenceMesh (setupGrid numX numY nt1) points
      = referenceMesh (setupGrid numX numY nt2) points :=
  rfl

theorem validPoint_numThreads (numX numY nt1 nt2 : Int) (p : Point)
    (h : validPoint (setupGrid numX numY nt1) p) : validPoint (setupGrid numX numY nt2) p :=
  h

/-- C6: with exact arithmetic, for a fixed list of valid particles the mesh
produced by `cloudInACellInterpolation` is the same for every two thread counts
`≥ 1` and every two assignments of the loop iterations to thread IDs inside
the respective team (and a mesh is produced). -/
theorem thread_count_invariance (numX numY nt1 nt2 : Int) (sched1 sched2 : Nat → Int)
    (mesh : List ℚ) (points : List Point) (hX : 1 ≤ numX) (hY : 1 ≤ numY)
    (hT1 : 1 ≤ nt1) (hT2 : 1 ≤ nt2)
    (hlen : mesh.length
      = ((setupGrid numX numY nt1).gridWidth * (setupGrid numX numY nt1).gridHeight).toNat)
    (hv : ∀ p ∈ points, validPoint (setupGrid numX numY nt1) p)
    (hs1 : validSched (setupGrid numX numY nt1) sched1 points.length)
    (hs2 : validSched (setupGrid numX numY nt2) sched2 points.length) :
    cloudInACellInterpolation (setupGrid numX numY nt1) sched1 mesh points
        = cloudInACellInterpolation (setupGrid numX numY nt2) sched2 mesh points
      ∧ ∃ m, cloudInACellInterpolation (setupGrid numX numY nt1) sched1 mesh points = some m := by
  have h1 := cloud_valid numX numY nt1 sched1 mesh points hX hY hT1 hlen hv hs1
  have h2 := cloud_valid numX numY nt2 sched2 mesh points hX hY hT2 hlen
    (fun p hp => validPoint_numThreads numX numY nt1 nt2 p (hv p hp)) hs2
  exact ⟨by rw [h1, h2, referenceMesh_numThreads numX numY nt1 nt2], _, h1⟩

theorem thread_count_invariance_witness :
    (1 : Int) ≤ 2 ∧ (1 : Int) ≤ 2 ∧ (1 : Int) ≤ 2 ∧ (1 : Int) ≤ 5
      ∧ (callocZero 9).length
        = ((setupGrid 2 2 2).gridWidth * (setupGrid 2 2 2).gridHeight).toNat
      ∧ (∀ p ∈ samplePoints, validPoint (setupGrid 2 2 2) p)
      ∧ validSched (setupGrid 2 2 2) alternate samplePoints.length
      ∧ validSched (setupGrid 2 2 5) onThreadZero samplePoints.length
      ∧ (cloudInACellInterpolation (setupGrid 2 2 2) alternate (callocZero 9) samplePoints
          = cloudInACellInterpolation (setupGrid 2 2 5) onThreadZero (callocZero 9) samplePoints
        ∧ ∃ m, cloudInACellInterpolation (setupGrid 2 2 2) alternate (callocZero 9) samplePoints
            = some m) :=
  ⟨by decide, by decide, by decide, by decide, by decide, samplePoints_valid 2,
    alternate_valid 2 2 _, onThreadZero_valid 2 2 5 (by decide) _,
    thread_count_invariance 2 2 2 5 alternate onThreadZero (callocZero 9) samplePoints
      (by decide) (by decide) (by decide) (by decide) (by decide) (samplePoints_valid 2)
      (alternate_valid 2 2 _) (onThreadZero_valid 2 2 5 (by decide) _)⟩

theorem referenceMesh_perm (g : Globals) (l1 l2 : List Point) (h : l1.Perm l2) :
    referenceMesh g l1 = referenceMesh g l2 := by
  unfold referenceMesh
  apply List.map_congr_left
  intro i _
  exact (h.map _).sum_eq

/-- C7: with exact arithmetic, for every list of valid particles and every
permutation of it, `cloudInACellInterpolation` produces the same local mesh
for the list and for the permutation (and a mesh is produced). -/
theorem permutation_invariance (numX numY nt : Int) (sched sched2 : Nat → Int) (mesh : List ℚ)
    (points points2 : List Point) (hX : 1 ≤ numX) (hY : 1 ≤ numY) (hT : 1 ≤ nt)
    (hlen : mesh.length
      = ((setupGrid numX numY nt).gridWidth * (setupGrid numX numY nt).gridHeight).toNat)
    (hv : ∀ p ∈ points, validPoint (setupGrid numX numY nt) p)
    (hperm : points.Perm points2)
    (hs : validSched (setupGrid numX numY nt) sched points.length)
    (hs2 : validSched (setupGrid numX numY nt) sched2 points2.length) :
    cloudInACellInterpolation (setupGrid numX numY nt) sched mesh points
        = cloudInACellInterpolation (setupGrid numX numY nt) sched2 mesh points2
      ∧ ∃ m, cloudInACellInterpolation (setupGrid numX numY nt) sched mesh points = some m := by
  have h1 := cloud_valid numX numY nt sched mesh points hX hY hT hlen hv hs
  have h2 := cloud_valid numX numY nt sched2 mesh points2 hX hY hT hlen
    (fun p hp => hv p (hperm.mem_iff.2 hp)) hs2
  exact ⟨by rw [h1, h2, referenceMesh_perm _ _ _ hperm], _, h1⟩

theorem permutation_invariance_witness :
    (1 : Int) ≤ 2 ∧ (1 : Int) ≤ 2 ∧ (1 : Int) ≤ 2
      ∧ (callocZero 9).length
        = ((setupGrid 2 2 2).gridWidth * (setupGrid 2 2 2).gridHeight).toNat
      ∧ (∀ p ∈ samplePoints, validPoint (setupGrid 2 2 2) p)
      ∧ samplePoints.Perm samplePoints.reverse
      ∧ validSched (setupGrid 2 2 2) alternate samplePoints.length
      ∧ validSched (setupGrid 2 2 2) alternate samplePoints.reverse.length
      ∧ (cloudInACellInterpolation (setupGrid 2 2 2) alternate (callocZero 9) samplePoints
          = cloudInACellInterpolation (setupGrid 2 2 2) alternate (callocZero 9)
              samplePoints.reverse
        ∧ ∃ m, cloudInACellInterpolation (setupGrid 2 2 2) alternate (callocZero 9) samplePoints
            = some m) :=
  ⟨by decide, by decide, by decide, by decide, samplePoints_valid 2,
    (List.reverse_perm samplePoints).symm, alternate_valid 2 2 _, alternate_valid 2 2 _,
    permutation_invariance 2 2 2 alternate alternate (callocZero 9) samplePoints
      samplePoints.reverse (by decide) (by decide) (by decide) (by decide)
      (samplePoints_valid 2) (List.reverse_perm samplePoints).symm (alternate_valid 2 2 _)
      (alternate_valid 2 2 _)⟩

/-! ## The mesh is reset by every call -/

theorem addAt_length (buf : List ℚ) (idx : Int) (v : ℚ) (out : List ℚ)
    (h : addAt buf idx v = some out) : out.length = buf.length := by
  unfold addAt at h
  split_ifs at h
  cases h
  simp

theorem sumThreads_length (g : Globals) (tpm : List ℚ) (i : Int) :
    ∀ (k : Nat) (t : Int) (mesh out : List ℚ),
      sumThreads g tpm i k t mesh = some out → out.length = mesh.length := by
  intro k
  induction k with
  | zero =>
    intro t mesh out h
    simp only [sumThreads, Option.some.injEq] at h
    rw [h]
  | succ k ih =>
    intro t mesh out h
    simp only [sumThreads] at h
    cases hr : readAt tpm (t * g.gridWidth * g.gridHeight + i) with
    | none => simp [hr] at h
    | some v =>
      simp only [hr] at h
      cases ha : addAt mesh i v with
      | none => simp [ha] at h
      | some m1 =>
        simp only [ha] at h
        rw [ih (t + 1) m1 out h, addAt_length mesh i v m1 ha]

theorem reduceLoop_length (g : Globals) (tpm : List ℚ) :
    ∀ (k : Nat) (i : Int) (mesh out : List ℚ),
      reduceLoop g tpm k i mesh = some out → out.length = mesh.length := by
  intro k
  induction k with
  | zero =>
    intro i mesh out h
    simp only [reduceLoop, Option.some.injEq] at h
    rw [h]
  | succ k ih =>
    intro i mesh out h
    simp only [reduceLoop] at h
    cases hs : sumThreads g tpm i g.numThreads.toNat 0 mesh with
    | none => simp [hs] at h
    | some m1 =>
      simp only [hs] at h
      rw [ih (i + 1) m1 out h, sumThreads_length g tpm i _ 0 mesh m1 hs]

theorem memsetZero_length (mesh : List ℚ) (n : Int) (out : List ℚ)
    (h : memsetZero mesh n = some out) : out.length = mesh.length := by
  unfold memsetZero at h
  split_ifs at h with hc
  cases h
  simp only [List.length_append, List.length_replicate, List.length_drop]
  omega

theorem cloud_length (g : Globals) (sched : Nat → Int) (mesh : List ℚ) (points : List Point)
    (out : List ℚ) (h : cloudInACellInterpolation g sched mesh points = some out) :
    out.length = mesh.length := by
  unfold cloudInACellInterpolation at h
  cases hm : memsetZero mesh (g.gridWidth * g.gridHeight) with
  | none => simp [hm] at h
  | some m0 =>
    simp only [hm] at h
    cases hd : depositLoop g sched points 0
        (callocZero (g.numThreads * g.gridWidth * g.gridHeight)) with
    | none => simp [hd] at h
    | some tpm =>
      simp only [hd] at h
      rw [reduceLoop_length g tpm _ 0 m0 out h, memsetZero_length mesh _ m0 hm]

theorem iterationLoop_length (g : Globals) :
    ∀ (rounds : List ((Nat → Int) × List Point)) (mesh out : List ℚ),
      iterationLoop g rounds mesh = some out → out.length = mesh.length := by
  intro rounds
  induction rounds with
  | nil =>
    intro mesh out h
    simp only [iterationLoop, Option.some.injEq] at h
    rw [h]
  | cons r rest ih =>
    intro mesh out h
    obtain ⟨s, pts⟩ := r
    simp only [iterationLoop] at h
    cases hc : cloudInACellInterpolation g s mesh pts with
    | none => simp [hc] at h
    | some m1 =>
      simp only [hc] at h
      rw [ih m1 out h, cloud_length g s mesh pts m1 hc]

theorem cloud_reset (g : Globals) (sched : Nat → Int) (m0 : List ℚ) (points : List Point)
    (hlen : m0.length = (g.gridWidth * g.gridHeight).toNat) :
    cloudInACellInterpolation g sched m0 points
      = cloudInACellInterpolation g sched (callocZero (g.gridWidth * g.gridHeight)) points := by
  unfold cloudInACellInterpolation
  by_cases hG : 0 ≤ g.gridWidth * g.gridHeight
  · rw [memsetZero_exact m0 _ hG hlen, memsetZero_exact _ _ hG (length_callocZero _)]
  · have h1 : ∀ m : List ℚ, memsetZero m (g.gridWidth * g.gridHeight) = none := by
      intro m
      simp [memsetZero, hG]
    rw [h1, h1]

theorem iterationLoop_append (g : Globals) (last : (Nat → Int) × List Point) :
    ∀ (pre : List ((Nat → Int) × List Point)) (mesh m : List ℚ),
      iterationLoop g pre mesh = some m →
      iterationLoop g (pre ++ [last]) mesh = cloudInACellInterpolation g last.1 m last.2 := by
  intro pre
  induction pre with
  | nil =>
    intro mesh m h
    simp only [iterationLoop, Option.some.injEq] at h
    subst h
    obtain ⟨s, pts⟩ := last
    simp only [List.nil_append, iterationLoop]
    cases cloudInACellInterpolation g s mesh pts <;> rfl
  | cons r rest ih =>
    intro mesh m h
    obtain ⟨s, pts⟩ := r
    simp only [iterationLoop] at h
    cases hc : cloudInACellInterpolation g s mesh pts with
    | none => simp [hc] at h
    | some m1 =>
      simp only [hc] at h
      simp only [List.cons_append, iterationLoop, hc]
      exact ih m1 m h

theorem iterationLoop_valid (numX numY nt : Int) (hX : 1 ≤ numX) (hY : 1 ≤ numY) (hT : 1 ≤ nt) :
    ∀ (rounds : List ((Nat → Int) × List Point)) (mesh : List ℚ),
      mesh.length
        = ((setupGrid numX numY nt).gridWidth * (setupGrid numX numY nt).gridHeight).toNat →
      (∀ r ∈ rounds, (∀ p ∈ r.2, validPoint (setupGrid numX numY nt) p)
        ∧ validSched (setupGrid numX numY nt) r.1 r.2.length) →
      ∃ m, iterationLoop (setupGrid numX numY nt) rounds mesh = some m := by
  intro rounds
  induction rounds with
  | nil => intro mesh _ _; exact ⟨mesh, rfl⟩
  | cons r rest ih =>
    intro mesh hlen hr
    obtain ⟨s, pts⟩ := r
    have h1 := hr (s, pts) (List.mem_cons_self _ _)
    have h2 := cloud_valid numX numY nt s mesh pts hX hY hT hlen h1.1 h1.2
    simp only [iterationLoop, h2]
    exact ih _ (length_referenceMesh _ _) (fun q hq => hr q (List.mem_cons_of_mem _ hq))

/-- C8: `cloudInACellInterpolation` zeroes the mesh before depositing: for
every initial mesh `m0` (of `gridWidth * gridHeight` nodes) and particle list
the result equals the result from the all-zero mesh.  Consequently the local
mesh that enters the final reduction is the all-zero mesh after `0` rounds,
and after `k ≥ 1` rounds (the earlier ones having completed) it is the mesh of
the last round's shard alone; for valid rounds that mesh is the reference mesh
of the last shard. -/
theorem mesh_reset_each_call (numX numY nt : Int) :
    (∀ (sched : Nat → Int) (m0 : List ℚ) (L : List Point),
        m0.length
          = ((setupGrid numX numY nt).gridWidth * (setupGrid numX numY nt).gridHeight).toNat →
        cloudInACellInterpolation (setupGrid numX numY nt) sched m0 L
          = cloudInACellInterpolation (setupGrid numX numY nt) sched
              (callocZero
                ((setupGrid numX numY nt).gridWidth * (setupGrid numX numY nt).gridHeight)) L)
      ∧ localMeshAtReduce (setupGrid numX numY nt) []
          = some (callocZero
              ((setupGrid numX numY nt).gridWidth * (setupGrid numX numY nt).gridHeight))
      ∧ (∀ (pre : List ((Nat → Int) × List Point)) (last : (Nat → Int) × List Point)
          (m : List ℚ), localMeshAtReduce (setupGrid numX numY nt) pre = some m →
          localMeshAtReduce (setupGrid numX numY nt) (pre ++ [last])
            = cloudInACellInterpolation (setupGrid numX numY nt) last.1
                (callocZero
                  ((setupGrid numX numY nt).gridWidth * (setupGrid numX numY nt).gridHeight))
                last.2)
      ∧ (1 ≤ numX → 1 ≤ numY → 1 ≤ nt →
          ∀ (pre : List ((Nat → Int) × List Point)) (last : (Nat → Int) × List Point),
            (∀ r ∈ pre ++ [last], (∀ p ∈ r.2, validPoint (setupGrid numX numY nt) p)
              ∧ validSched (setupGrid numX numY nt) r.1 r.2.length) →
            localMeshAtReduce (setupGrid numX numY nt) (pre ++ [last])
              = some (referenceMesh (setupGrid numX numY nt) last.2)) := by
  have hc : ∀ (pre : List ((Nat → Int) × List Point)) (last : (Nat → Int) × List Point)
      (m : List ℚ), localMeshAtReduce (setupGrid numX numY nt) pre = some m →
      localMeshAtReduce (setupGrid numX numY nt) (pre ++ [last])
        = cloudInACellInterpolation (setupGrid numX numY nt) last.1
            (callocZero
              ((setupGrid numX numY nt).gridWidth * (setupGrid numX numY nt).gridHeight))
            last.2 := by
    intro pre last m h
    unfold localMeshAtReduce at h ⊢
    rw [iterationLoop_append _ last pre _ m h]
    apply cloud_reset
    rw [iterationLoop_length _ pre _ m h, length_callocZero]
  refine ⟨fun sched m0 L h => cloud_reset _ sched m0 L h, rfl, hc, ?_⟩
  intro hX hY hT pre last hr
  obtain ⟨m, hm⟩ := iterationLoop_valid numX numY nt hX hY hT pre _ (length_callocZero _)
    (fun r hr2 => hr r (List.mem_append_left _ hr2))
  have hl := hr last (by simp)
  rw [hc pre last m hm]
  exact cloud_valid numX numY nt last.1 _ last.2 hX hY hT (length_callocZero _) hl.1 hl.2

/-- C9 (as stated, refuted): on the grid `numX = numY = 2` a single particle at
the interior node `(1/2, 1/2)` does not put the weight `1` on node `4`; the mesh
has `1/4` there. -/
theorem node_particle_not_unit :
    cloudInACellInterpolation (setupGrid 2 2 1) onThreadZero (callocZero 9)
        [{ x := 1 / 2, y := 1 / 2 }]
        = some [0, 0, 0, 0, 1 / 4, 0, 0, 0, 0]
      ∧ cloudInACellInterpolation (setupGrid 2 2 1) onThreadZero (callocZero 9)
        [{ x := 1 / 2, y := 1 / 2 }]
        ≠ some [0, 0, 0, 0, 1, 0, 0, 0, 0] := by
  decide!

theorem referenceMesh_node_particle (nt : Int) :
    referenceMesh (setupGrid 2 2 nt) [{ x := 1 / 2, y := 1 / 2 }]
      = [0, 0, 0, 0, 1 / 4, 0, 0, 0, 0] := by
  rw [referenceMesh_numThreads 2 2 nt 1]
  decide!

/-- C9 (amended): on the grid `numX = numY = 2` (3 x 3 nodes, `stepX = stepY = 1/2`)
a single particle at the interior node `(1/2, 1/2)` makes
`cloudInACellInterpolation` deposit its whole contribution
`stepX * stepY = 1/4` onto node 4 (row 1, column 1) and zero onto every other
node, for every thread count `≥ 1` and schedule inside the team. -/
theorem node_particle_single_node (nt : Int) (sched : Nat → Int) (mesh : List ℚ)
    (hT : 1 ≤ nt) (hlen : mesh.length = 9)
    (hs : validSched (setupGrid 2 2 nt) sched 1) :
    cloudInACellInterpolation (setupGrid 2 2 nt) sched mesh [{ x := 1 / 2, y := 1 / 2 }]
        = some [0, 0, 0, 0, 1 / 4, 0, 0, 0, 0]
      ∧ (setupGrid 2 2 nt).stepX * (setupGrid 2 2 nt).stepY = 1 / 4 := by
  refine ⟨?_, ?_⟩
  · rw [cloud_valid 2 2 nt sched mesh [{ x := 1 / 2, y := 1 / 2 }] (by decide) (by decide) hT
      hlen ?_ hs, referenceMesh_node_particle]
    intro p hp
    rw [List.mem_singleton] at hp
    subst hp
    simp only [validPoint, setupGrid]
    norm_num
  · simp only [setupGrid]
    norm_num

theorem node_particle_single_node_witness :
    (1 : Int) ≤ 3 ∧ ([1, 2, 3, 4, 5, 6, 7, 8, 9] : List ℚ).length = 9
      ∧ validSched (setupGrid 2 2 3) onThreadZero 1
      ∧ (cloudInACellInterpolation (setupGrid 2 2 3) onThreadZero [1, 2, 3, 4, 5, 6, 7, 8, 9]
            [{ x := 1 / 2, y := 1 / 2 }]
          = some [0, 0, 0, 0, 1 / 4, 0, 0, 0, 0]
        ∧ (setupGrid 2 2 3).stepX * (setupGrid 2 2 3).stepY = 1 / 4) :=
  ⟨by decide, by decide, onThreadZero_valid 2 2 3 (by decide) 1,
    node_particle_single_node 3 onThreadZero [1, 2, 3, 4, 5, 6, 7, 8, 9] (by decide) (by decide)
      (onThreadZero_valid 2 2 3 (by decide) 1)⟩

theorem mesh_reset_each_call_witness :
    localMeshAtReduce (setupGrid 2 2 2) [(alternate, samplePoints)]
        = some [1 / 4, 1 / 25, 4 / 25, 1 / 16, 129 / 400, 1 / 25, 1 / 16, 1 / 16, 0]
      ∧ localMeshAtReduce (setupGrid 2 2 2)
          ([(alternate, samplePoints)] ++ [(onThreadZero, [{ x := 1 / 2, y := 1 / 2 }])])
        = cloudInACellInterpolation (setupGrid 2 2 2) onThreadZero
            (callocZero ((setupGrid 2 2 2).gridWidth * (setupGrid 2 2 2).gridHeight))
            [{ x := 1 / 2, y := 1 / 2 }] :=
  ⟨by decide!,
    (mesh_reset_each_call 2 2 2).2.2.1 [(alternate, samplePoints)]
      (onThreadZero, [{ x := 1 / 2, y := 1 / 2 }])
      [1 / 4, 1 / 25, 4 / 25, 1 / 16, 129 / 400, 1 / 25, 1 / 16, 1 / 16, 0] (by decide!)⟩

/-! ## Every write stays in the slice of its thread -/

/-- With exact arithmetic and the index arithmetic read over the mathematical
integers: for a grid with `numX, numY ≥ 1`, a thread count `≥ 1`, a thread ID
`0 ≤ t < numThreads` and a valid particle, the four node indices lie in
`[0, gridWidth * gridHeight)`; every write index `t * gridWidth * gridHeight + p`
lies in `[t * G, (t + 1) * G)` and inside the scratch buffer of
`numThreads * gridWidth * gridHeight` elements; and the loop body run on such a
buffer succeeds and leaves every element outside the slice of thread `t`
unchanged. -/
theorem writes_in_own_slice (numX numY nt t : Int) (p : Point) (hX : 1 ≤ numX) (hY : 1 ≤ numY)
    (hT : 1 ≤ nt) (ht0 : 0 ≤ t) (ht1 : t < nt)
    (hv : validPoint (setupGrid numX numY nt) p) :
    (∀ q ∈ [p1 (setupGrid numX numY nt) p, p2 (setupGrid numX numY nt) p,
          p3 (setupGrid numX numY nt) p, p4 (setupGrid numX numY nt) p],
        (0 ≤ q
          ∧ q < (setupGrid numX numY nt).gridWidth * (setupGrid numX numY nt).gridHeight)
        ∧ (t * ((setupGrid numX numY nt).gridWidth * (setupGrid numX numY nt).gridHeight)
            ≤ t * (setupGrid numX numY nt).gridWidth * (setupGrid numX numY nt).gridHeight + q
          ∧ t * (setupGrid numX numY nt).gridWidth * (setupGrid numX numY nt).gridHeight + q
            < (t + 1)
              * ((setupGrid numX numY nt).gridWidth * (setupGrid numX numY nt).gridHeight))
        ∧ (0 ≤ t * (setupGrid numX numY nt).gridWidth * (setupGrid numX numY nt).gridHeight + q
          ∧ t * (setupGrid numX numY nt).gridWidth * (setupGrid numX numY nt).gridHeight + q
            < (setupGrid numX numY nt).numThreads * (setupGrid numX numY nt).gridWidth
              * (setupGrid numX numY nt).gridHeight))
      ∧ (∀ tpm : List ℚ,
          tpm.length = ((setupGrid numX numY nt).numThreads * (setupGrid numX numY nt).gridWidth
            * (setupGrid numX numY nt).gridHeight).toNat →
          ∃ out, depositPoint (setupGrid numX numY nt) t tpm p = some out
            ∧ out.length = tpm.length
            ∧ ∀ k : Nat,
                ¬ (t * ((setupGrid numX numY nt).gridWidth
                      * (setupGrid numX numY nt).gridHeight) ≤ (k : Int)
                    ∧ (k : Int) < (t + 1) * ((setupGrid numX numY nt).gridWidth
                      * (setupGrid numX numY nt).gridHeight)) →
                out.getD k 0 = tpm.getD k 0) := by
  have hin := indicesInMesh_of_valid numX numY nt p hX hY hv
  have hG := gridCells_pos numX numY nt hX hY
  generalize hg : setupGrid numX numY nt = g at hin hG hv ⊢
  have hnt : g.numThreads = nt := by rw [← hg]; rfl
  have hlo : 0 ≤ t * (g.gridWidth * g.gridHeight) := mul_nonneg ht0 hG.le
  have hhi : (t + 1) * (g.gridWidth * g.gridHeight) ≤ nt * (g.gridWidth * g.gridHeight) :=
    mul_le_mul_of_nonneg_right (by omega) hG.le
  have e1 : t * g.gridWidth * g.gridHeight = t * (g.gridWidth * g.gridHeight) := by ring
  have e2 : nt * g.gridWidth * g.gridHeight = nt * (g.gridWidth * g.gridHeight) := by ring
  have e3 : (t + 1) * (g.gridWidth * g.gridHeight)
      = t * (g.gridWidth * g.gridHeight) + g.gridWidth * g.gridHeight := by ring
  have hnn : 0 ≤ nt * (g.gridWidth * g.gridHeight) := mul_nonneg (by omega) hG.le
  obtain ⟨⟨h1a, h1b⟩, ⟨h2a, h2b⟩, ⟨h3a, h3b⟩, ⟨h4a, h4b⟩⟩ := hin
  rw [hnt, e1, e2, e3]
  rw [e3] at hhi
  refine ⟨?_, ?_⟩
  · intro q hq
    simp only [List.mem_cons, List.mem_singleton, List.not_mem_nil, or_false] at hq
    rcases hq with rfl | rfl | rfl | rfl <;>
      refine ⟨⟨?_, ?_⟩, ⟨?_, ?_⟩, ⟨?_, ?_⟩⟩ <;> omega
  · intro tpm hlen
    have hb : pointInBounds g t p tpm.length := by
      unfold pointInBounds
      rw [e1, hlen, Int.toNat_of_nonneg hnn]
      refine ⟨⟨?_, ?_⟩, ⟨?_, ?_⟩, ⟨?_, ?_⟩, ⟨?_, ?_⟩⟩ <;> omega
    obtain ⟨out, ho, hl, hget⟩ := depositPoint_spec g t tpm p hb
    refine ⟨out, ho, hl, ?_⟩
    intro k hk
    rw [hget k, e1, kernelAt_eq_zero g p _ ⟨⟨h1a, h1b⟩, ⟨h2a, h2b⟩, ⟨h3a, h3b⟩, ⟨h4a, h4b⟩⟩ (by omega),
      add_zero]

theorem writes_in_own_slice_witness :
    (1 : Int) ≤ 2 ∧ (1 : Int) ≤ 2 ∧ (1 : Int) ≤ 3 ∧ (0 : Int) ≤ 1 ∧ (1 : Int) < 3
      ∧ validPoint (setupGrid 2 2 3) { x := 9 / 10, y := 1 / 10 }
      ∧ ((∀ q ∈ [p1 (setupGrid 2 2 3) { x := 9 / 10, y := 1 / 10 },
            p2 (setupGrid 2 2 3) { x := 9 / 10, y := 1 / 10 },
            p3 (setupGrid 2 2 3) { x := 9 / 10, y := 1 / 10 },
            p4 (setupGrid 2 2 3) { x := 9 / 10, y := 1 / 10 }],
          (0 ≤ q ∧ q < (setupGrid 2 2 3).gridWidth * (setupGrid 2 2 3).gridHeight)
          ∧ (1 * ((setupGrid 2 2 3).gridWidth * (setupGrid 2 2 3).gridHeight)
              ≤ 1 * (setupGrid 2 2 3).gridWidth * (setupGrid 2 2 3).gridHeight + q
            ∧ 1 * (setupGrid 2 2 3).gridWidth * (setupGrid 2 2 3).gridHeight + q
              < (1 + 1) * ((setupGrid 2 2 3).gridWidth * (setupGrid 2 2 3).gridHeight))
          ∧ (0 ≤ 1 * (setupGrid 2 2 3).gridWidth * (setupGrid 2 2 3).gridHeight + q
            ∧ 1 * (setupGrid 2 2 3).gridWidth * (setupGrid 2 2 3).gridHeight + q
              < (setupGrid 2 2 3).numThreads * (setupGrid 2 2 3).gridWidth
                * (setupGrid 2 2 3).gridHeight))
        ∧ (∀ tpm : List ℚ,
            tpm.length = ((setupGrid 2 2 3).numThreads * (setupGrid 2 2 3).gridWidth
              * (setupGrid 2 2 3).gridHeight).toNat →
            ∃ out, depositPoint (setupGrid 2 2 3) 1 tpm { x := 9 / 10, y := 1 / 10 } = some out
              ∧ out.length = tpm.length
              ∧ ∀ k : Nat,
                  ¬ (1 * ((setupGrid 2 2 3).gridWidth * (setupGrid 2 2 3).gridHeight) ≤ (k : Int)
                      ∧ (k : Int) < (1 + 1) * ((setupGrid 2 2 3).gridWidth
                        * (setupGrid 2 2 3).gridHeight)) →
                  out.getD k 0 = tpm.getD k 0)) :=
  ⟨by decide, by decide, by decide, by decide, by decide, by decide!,
    writes_in_own_slice 2 2 3 1 { x := 9 / 10, y := 1 / 10 } (by decide) (by decide) (by decide)
      (by decide) (by decide) (by decide!)⟩

/-! ## A valid particle in `double` arithmetic -/

/-- C10 (failing input): in `double` arithmetic, on the grid `numX = numY = 3`
(16 nodes) the particle `x = y = 1 - 2 ^ (-53)` is a `double` and is valid
(`0 ≤ x < numX * stepX`, with `stepX` the `double` of line 136 and the product
taken exactly or in `double`, and also in the exact reading), yet
`px / stepX` rounds to `3.0`, so that `gridX = gridY = 3 = numX` and the node
indices `p1 .. p4` are `15, 16, 19, 20`: with `numThreads = 1` the writes at
`p2, p3, p4` fall outside the scratch buffer of
`numThreads * gridWidth * gridHeight = 16` elements.  In the exact reading
the same particle has `gridX = gridY = 2`. -/
theorem valid_particle_writes_outside :
    roundToDouble edgeParticle.x = edgeParticle.x
      ∧ roundToDouble edgeParticle.y = edgeParticle.y
      ∧ (0 ≤ edgeParticle.x ∧ edgeParticle.x < 3 * stepDouble 3
        ∧ edgeParticle.x < mulDouble 3 (stepDouble 3))
      ∧ (0 ≤ edgeParticle.y ∧ edgeParticle.y < 3 * stepDouble 3
        ∧ edgeParticle.y < mulDouble 3 (stepDouble 3))
      ∧ validPoint (setupGrid 3 3 1) edgeParticle
      ∧ divDouble edgeParticle.x (stepDouble 3) = 3
      ∧ gridXDouble 3 edgeParticle = 3
      ∧ gridYDouble 3 edgeParticle = 3
      ∧ nodeIndicesDouble 3 3 edgeParticle = [15, 16, 19, 20]
      ∧ (setupGrid 3 3 1).numThreads * (setupGrid 3 3 1).gridWidth
          * (setupGrid 3 3 1).gridHeight = 16
      ∧ gridX (setupGrid 3 3 1) edgeParticle = 2
      ∧ gridY (setupGrid 3 3 1) edgeParticle = 2 := by
  decide!

/-- In `double` arithmetic, on the grid `numX = numY = 93` the boundary particle
`(1.0, 1.0)` has `1.0 / stepX` rounded below `93`, so `gridX = gridY = 92` and
the node indices `8740, 8741, 8834, 8835` all lie in
`[0, gridWidth * gridHeight) = [0, 8836)`; in the exact reading `gridX = 93`. -/
theorem boundary_particle_double :
    gridXDouble 93 { x := 1, y := 1 } = 92
      ∧ gridYDouble 93 { x := 1, y := 1 } = 92
      ∧ nodeIndicesDouble 93 93 { x := 1, y := 1 } = [8740, 8741, 8834, 8835]
      ∧ (setupGrid 93 93 1).gridWidth * (setupGrid 93 93 1).gridHeight = 8836
      ∧ gridX (setupGrid 93 93 1) { x := 1, y := 1 } = 93 := by
  decide!

/-! ## Particles outside the grid interior -/

/-- One coordinate at or beyond the upper end of the grid: the cell index is at
least `n`. -/
theorem trunc_cell_ge (n : Int) (x : ℚ) (hn : 1 ≤ n) (h1 : (n : ℚ) * (1 / (n : ℚ)) ≤ x) :
    n ≤ truncToInt (x / (1 / (n : ℚ))) := by
  have hnq : (0 : ℚ) < (n : ℚ) := by exact_mod_cast (by omega : (0 : Int) < n)
  have hs : (0 : ℚ) < 1 / (n : ℚ) := by positivity
  have e : (n : ℚ) * (1 / (n : ℚ)) = 1 := by field_simp
  rw [e] at h1
  have hq : (n : ℚ) ≤ x / (1 / (n : ℚ)) := by
    rw [le_div_iff₀ hs, e]
    exact h1
  have hq0 : 0 ≤ x / (1 / (n : ℚ)) := le_trans hnq.le hq
  rw [truncToInt_of_nonneg _ hq0]
  exact Int.le_floor.2 hq

/-- One non-negative coordinate: the cell index is non-negative. -/
theorem trunc_cell_nonneg (n : Int) (x : ℚ) (hn : 1 ≤ n) (h0 : 0 ≤ x) :
    0 ≤ truncToInt (x / (1 / (n : ℚ))) := by
  have hnq : (0 : ℚ) < (n : ℚ) := by exact_mod_cast (by omega : (0 : Int) < n)
  have hs : (0 : ℚ) < 1 / (n : ℚ) := by positivity
  have hq0 : 0 ≤ x / (1 / (n : ℚ)) := div_nonneg h0 hs.le
  rw [truncToInt_of_nonneg _ hq0]
  exact Int.floor_nonneg.2 hq0

/-- C11 (as stated, refuted): on the grid `numX = numY = 2` the particle
`(1, 0)` has `x ≥ numX * stepX`, yet its four node indices `2, 3, 5, 6` all lie
in `[0, gridWidth * gridHeight) = [0, 9)`, and the function runs without any
access outside its buffers. -/
theorem boundary_x_indices_inside :
    ((setupGrid 2 2 1).numX : ℚ) * (setupGrid 2 2 1).stepX ≤ (1 : ℚ)
      ∧ (setupGrid 2 2 1).gridWidth * (setupGrid 2 2 1).gridHeight = 9
      ∧ p1 (setupGrid 2 2 1) { x := 1, y := 0 } = 2
      ∧ p2 (setupGrid 2 2 1) { x := 1, y := 0 } = 3
      ∧ p3 (setupGrid 2 2 1) { x := 1, y := 0 } = 5
      ∧ p4 (setupGrid 2 2 1) { x := 1, y := 0 } = 6
      ∧ cloudInACellInterpolation (setupGrid 2 2 1) onThreadZero (callocZero 9)
          [{ x := 1, y := 0 }] = some [0, 0, 1 / 4, 0, 0, 0, 0, 0, 0] := by
  decide!

/-- C11 (amended): with exact arithmetic (and the index arithmetic read over
the mathematical integers), for a grid with `numX, numY ≥ 1` and a particle
with `x ≥ numX * stepX` or `y ≥ numY * stepY`, a node outside the mesh is
addressed: the column `gridX + 1` is at least `gridWidth` or the row
`gridY + 1` is at least `gridHeight`.  When `y ≥ numY * stepY` and `x ≥ 0` the
flat indices `p3` and `p4` are at least `gridWidth * gridHeight`. -/
theorem out_of_range_particle (numX numY nt : Int) (p : Point) (hX : 1 ≤ numX) (hY : 1 ≤ numY)
    (hout : ((setupGrid numX numY nt).numX : ℚ) * (setupGrid numX numY nt).stepX ≤ p.x
      ∨ ((setupGrid numX numY nt).numY : ℚ) * (setupGrid numX numY nt).stepY ≤ p.y) :
    ((setupGrid numX numY nt).gridWidth ≤ gridX (setupGrid numX numY nt) p + 1
        ∨ (setupGrid numX numY nt).gridHeight ≤ gridY (setupGrid numX numY nt) p + 1)
      ∧ (0 ≤ p.x →
          ((setupGrid numX numY nt).numY : ℚ) * (setupGrid numX numY nt).stepY ≤ p.y →
          (setupGrid numX numY nt).gridWidth * (setupGrid numX numY nt).gridHeight
              ≤ p3 (setupGrid numX numY nt) p
            ∧ (setupGrid numX numY nt).gridWidth * (setupGrid numX numY nt).gridHeight
              ≤ p4 (setupGrid numX numY nt) p) := by
  refine ⟨?_, ?_⟩
  · rcases hout with h | h
    · left
      have := trunc_cell_ge numX p.x hX h
      show numX + 1 ≤ truncToInt (p.x / (1 / (numX : ℚ))) + 1
      omega
    · right
      have := trunc_cell_ge numY p.y hY h
      show numY + 1 ≤ truncToInt (p.y / (1 / (numY : ℚ))) + 1
      omega
  · intro hx0 hy
    have hgx : 0 ≤ gridX (setupGrid numX numY nt) p := trunc_cell_nonneg numX p.x hX hx0
    have hgy : numY ≤ gridY (setupGrid numX numY nt) p := trunc_cell_ge numY p.y hY hy
    unfold p3 p4
    generalize gridX (setupGrid numX numY nt) p = gx at hgx
    generalize gridY (setupGrid numX numY nt) p = gy at hgy
    show (numX + 1) * (numY + 1) ≤ (gy + 1) * (numX + 1) + gx
      ∧ (numX + 1) * (numY + 1) ≤ (gy + 1) * (numX + 1) + (gx + 1)
    have h2 : (numY + 1) * (numX + 1) ≤ (gy + 1) * (numX + 1) :=
      mul_le_mul_of_nonneg_right (by omega) (by omega)
    have e2 : (numX + 1) * (numY + 1) = (numY + 1) * (numX + 1) := by ring
    rw [e2]
    constructor <;> omega

theorem out_of_range_particle_witness :
    (1 : Int) ≤ 2 ∧ (1 : Int) ≤ 2
      ∧ (((setupGrid 2 2 1).numX : ℚ) * (setupGrid 2 2 1).stepX ≤ ({ x := 0, y := 1 } : Point).x
        ∨ ((setupGrid 2 2 1).numY : ℚ) * (setupGrid 2 2 1).stepY
            ≤ ({ x := 0, y := 1 } : Point).y)
      ∧ (((setupGrid 2 2 1).gridWidth ≤ gridX (setupGrid 2 2 1) { x := 0, y := 1 } + 1
          ∨ (setupGrid 2 2 1).gridHeight ≤ gridY (setupGrid 2 2 1) { x := 0, y := 1 } + 1)
        ∧ (0 ≤ ({ x := 0, y := 1 } : Point).x →
            ((setupGrid 2 2 1).numY : ℚ) * (setupGrid 2 2 1).stepY
              ≤ ({ x := 0, y := 1 } : Point).y →
            (setupGrid 2 2 1).gridWidth * (setupGrid 2 2 1).gridHeight
                ≤ p3 (setupGrid 2 2 1) { x := 0, y := 1 }
              ∧ (setupGrid 2 2 1).gridWidth * (setupGrid 2 2 1).gridHeight
                ≤ p4 (setupGrid 2 2 1) { x := 0, y := 1 })) :=
  ⟨by decide, by decide, by decide!,
    out_of_range_particle 2 2 1 { x := 0, y := 1 } (by decide) (by decide) (by decide!)⟩

/-! ## Balance of the partition -/

theorem pointsForMe_eq_ediv (N P r : Int) (hN : 0 ≤ N) (hP : 1 ≤ P) :
    pointsForMe N P r = N / P + (if r < N % P then 1 else 0) := by
  unfold pointsForMe pointsPerProc remainder
  rw [Int.tdiv_eq_ediv hN (by omega), Int.tmod_eq_emod hN (by omega)]

/-- C12: for `N ≥ 0` and `P ≥ 1` the per-rank counts are balanced: the ranks
`r < N mod P` receive `floor (N / P) + 1` particles and the ranks `r ≥ N mod P`
receive `floor (N / P)` (with `0 ≤ N mod P < P`), any two ranks differ by at
most one, and the counts are non-increasing in the rank; when `2 * N` fits an
`int` the entries of the scatter array `counts` are twice these numbers. -/
theorem counts_balanced (N P : Int) (hN : 0 ≤ N) (hP : 1 ≤ P) :
    (0 ≤ N % P ∧ N % P < P)
      ∧ (∀ r : Int, 0 ≤ r → r < P →
          (r < N % P → pointsForMe N P r = N / P + 1)
            ∧ (N % P ≤ r → pointsForMe N P r = N / P))
      ∧ (∀ r s : Int, 0 ≤ r → r < P → 0 ≤ s → s < P →
          |pointsForMe N P r - pointsForMe N P s| ≤ 1)
      ∧ (∀ r s : Int, 0 ≤ r → r ≤ s → s < P → pointsForMe N P s ≤ pointsForMe N P r)
      ∧ (2 * N ≤ 2147483647 → ∀ r : Nat, (r : Int) < P →
          (counts N P)[r]? = some (2 * (N / P + (if (r : Int) < N % P then 1 else 0)))) := by
  have hm0 : 0 ≤ N % P := Int.emod_nonneg N (by omega)
  have hm1 : N % P < P := Int.emod_lt_of_pos N (by omega)
  refine ⟨⟨hm0, hm1⟩, ?_, ?_, ?_, ?_⟩
  · intro r _ _
    rw [pointsForMe_eq_ediv N P r hN hP]
    constructor
    · intro h; rw [if_pos h]
    · intro h; rw [if_neg (by omega), add_zero]
  · intro r s _ _ _ _
    rw [pointsForMe_eq_ediv N P r hN hP, pointsForMe_eq_ediv N P s hN hP, abs_le]
    split_ifs <;> constructor <;> omega
  · intro r s _ hrs _
    rw [pointsForMe_eq_ediv N P r hN hP, pointsForMe_eq_ediv N P s hN hP]
    split_ifs <;> omega
  · intro h2N r hr
    rw [counts_eq_exact N P hN hP h2N, ← pointsForMe_eq_ediv N P r hN hP]
    obtain ⟨n, rfl⟩ := Int.eq_ofNat_of_zero_le hN
    obtain ⟨p, rfl⟩ := Int.eq_ofNat_of_zero_le (by omega : (0 : Int) ≤ P)
    exact countsExact_getElem? n p r (by omega)

theorem counts_balanced_witness :
    (0 : Int) ≤ 10 ∧ (1 : Int) ≤ 3 ∧
      (((0 : Int) ≤ 10 % 3 ∧ (10 : Int) % 3 < 3)
      ∧ (∀ r : Int, 0 ≤ r → r < 3 →
          (r < 10 % 3 → pointsForMe 10 3 r = 10 / 3 + 1)
            ∧ (10 % 3 ≤ r → pointsForMe 10 3 r = 10 / 3))
      ∧ (∀ r s : Int, 0 ≤ r → r < 3 → 0 ≤ s → s < 3 →
          |pointsForMe 10 3 r - pointsForMe 10 3 s| ≤ 1)
      ∧ (∀ r s : Int, 0 ≤ r → r ≤ s → s < 3 → pointsForMe 10 3 s ≤ pointsForMe 10 3 r)
      ∧ ((2 : Int) * 10 ≤ 2147483647 → ∀ r : Nat, (r : Int) < 3 →
          (counts 10 3)[r]? = some (2 * (10 / 3 + (if (r : Int) < 10 % 3 then 1 else 0))))) :=
  ⟨by decide, by decide, counts_balanced 10 3 (by decide) (by decide)⟩

/-! ## The argument check -/

theorem sum_range_rank_zero (n : Nat) (hn : 0 < n) (f : Nat → Outcome) (argc : Int)
    (hargc : argc ≠ 3) :
    ((List.range n).map
        (fun r : Nat => (main argc (r : Int) (f r)).events.count Event.printUsage)).sum = 1 := by
  have h1 : ∀ r : Nat, (main argc (r : Int) (f r)).events.count Event.printUsage
      = (if r < 1 then 1 else 0) := by
    intro r
    unfold main
    rw [if_pos hargc]
    by_cases hr : r = 0
    · subst hr; simp
    · have h2 : ¬ ((r : Int) = 0) := by omega
      have h3 : ¬ (r < 1) := by omega
      simp [h2, h3]
  simp only [h1]
  rw [sum_range_indicator]
  omega

/-- C13: when `argc` is not `3`, `main` returns `1` on every rank after the
usage message (on rank `0` only) and `MPI_Finalize`, with no action of lines
113-195: no input is opened or read and no mesh is computed; over the ranks
`0 .. size - 1` the message is printed exactly once.  When `argc` is `3` the
branch is not taken and the rank runs lines 113-195. -/
theorem usage_exit (argc size : Int) (rests : Nat → Outcome) (hsize : 1 ≤ size) :
    (argc ≠ 3 →
        (∀ r : Nat, (main argc (r : Int) (rests r)).exitStatus = 1
          ∧ (main argc (r : Int) (rests r)).events
              = (if (r : Int) = 0 then [Event.printUsage] else []) ++ [Event.mpiFinalize]
          ∧ Event.openInput ∉ (main argc (r : Int) (rests r)).events
          ∧ Event.readInput ∉ (main argc (r : Int) (rests r)).events
          ∧ Event.computeMesh ∉ (main argc (r : Int) (rests r)).events
          ∧ (Event.printUsage ∈ (main argc (r : Int) (rests r)).events ↔ r = 0))
        ∧ ((List.range size.toNat).map
            (fun r : Nat => (main argc (r : Int) (rests r)).events.count Event.printUsage)).sum
          = 1)
      ∧ (argc = 3 → ∀ r : Nat, main argc (r : Int) (rests r) = rests r) := by
  refine ⟨?_, ?_⟩
  · intro hargc
    refine ⟨?_, sum_range_rank_zero size.toNat (by omega) rests argc hargc⟩
    intro r
    unfold main
    rw [if_pos hargc]
    by_cases hr : r = 0
    · subst hr; simp
    · have h2 : ¬ ((r : Int) = 0) := by omega
      simp [h2, hr]
  · intro hargc r
    unfold main
    rw [if_neg (by omega)]

theorem usage_exit_witness :
    (1 : Int) ≤ 4 ∧
      (((2 : Int) ≠ 3 →
        (∀ r : Nat, (main 2 (r : Int) sampleRest).exitStatus = 1
          ∧ (main 2 (r : Int) sampleRest).events
              = (if (r : Int) = 0 then [Event.printUsage] else []) ++ [Event.mpiFinalize]
          ∧ Event.openInput ∉ (main 2 (r : Int) sampleRest).events
          ∧ Event.readInput ∉ (main 2 (r : Int) sampleRest).events
          ∧ Event.computeMesh ∉ (main 2 (r : Int) sampleRest).events
          ∧ (Event.printUsage ∈ (main 2 (r : Int) sampleRest).events ↔ r = 0))
        ∧ ((List.range (4 : Int).toNat).map
            (fun r : Nat => (main 2 (r : Int) sampleRest).events.count Event.printUsage)).sum
          = 1)
      ∧ ((2 : Int) = 3 → ∀ r : Nat, main 2 (r : Int) sampleRest = sampleRest)) :=
  ⟨by decide, usage_exit 2 4 (fun _ => sampleRest) (by decide)⟩

/-! ## The two-phase computation against the specification's kernel -/

theorem flat_index_inj (w a b c d : Int) (hb0 : 0 ≤ b) (hb1 : b < w) (hd0 : 0 ≤ d)
    (hd1 : d < w) : a * w + b = c * w + d ↔ a = c ∧ b = d := by
  constructor
  · intro h
    have hw : 0 < w := by omega
    rcases lt_trichotomy a c with hlt | heq | hgt
    · exfalso
      have h1 : (a + 1) * w ≤ c * w := mul_le_mul_of_nonneg_right (by omega) hw.le
      have e : (a + 1) * w = a * w + w := by ring
      rw [e] at h1
      omega
    · subst heq
      exact ⟨rfl, by omega⟩
    · exfalso
      have h1 : (c + 1) * w ≤ a * w := mul_le_mul_of_nonneg_right (by omega) hw.le
      have e : (c + 1) * w = c * w + w := by ring
      rw [e] at h1
      omega
  · rintro ⟨rfl, rfl⟩
    rfl

theorem kernelAt_eq_specContribution (numX numY nt : Int) (p : Point) (row col : Int)
    (hX : 1 ≤ numX) (hY : 1 ≤ numY) (hv : validPoint (setupGrid numX numY nt) p)
    (hc0 : 0 ≤ col) (hc1 : col < (setupGrid numX numY nt).gridWidth) :
    kernelAt (setupGrid numX numY nt) p (row * (setupGrid numX numY nt).gridWidth + col)
      = specContribution (setupGrid numX numY nt) p row col := by
  obtain ⟨hfx, ⟨hx0, hx1⟩, _⟩ := trunc_cell numX p.x hX hv.1.1 hv.1.2
  obtain ⟨hfy, _, _⟩ := trunc_cell numY p.y hY hv.2.1 hv.2.2
  have hgx : ⌊p.x / (setupGrid numX numY nt).stepX⌋ = gridX (setupGrid numX numY nt) p :=
    hfx.symm
  have hgy : ⌊p.y / (setupGrid numX numY nt).stepY⌋ = gridY (setupGrid numX numY nt) p :=
    hfy.symm
  have hx0' : 0 ≤ gridX (setupGrid numX numY nt) p := hx0
  have hx1' : gridX (setupGrid numX numY nt) p < numX := hx1
  have hw : (setupGrid numX numY nt).gridWidth = numX + 1 := rfl
  unfold specContribution
  simp only [hgx, hgy]
  unfold kernelAt p1 p2 p3 p4 area1 area2 area3 area4 localX localY weight
  rw [hw] at hc1 ⊢
  generalize gridX (setupGrid numX numY nt) p = gx at hx0' hx1'
  generalize gridY (setupGrid numX numY nt) p = gy
  have c1 : gy * (numX + 1) + gx = row * (numX + 1) + col ↔ row = gy ∧ col = gx := by
    rw [flat_index_inj (numX + 1) gy gx row col (by omega) (by omega) hc0 hc1]
    constructor <;> rintro ⟨h1, h2⟩ <;> exact ⟨h1.symm, h2.symm⟩
  have c2 : gy * (numX + 1) + (gx + 1) = row * (numX + 1) + col ↔ row = gy ∧ col = gx + 1 := by
    rw [flat_index_inj (numX + 1) gy (gx + 1) row col (by omega) (by omega) hc0 hc1]
    constructor <;> rintro ⟨h1, h2⟩ <;> exact ⟨h1.symm, h2.symm⟩
  have c3 : (gy + 1) * (numX + 1) + gx = row * (numX + 1) + col ↔ row = gy + 1 ∧ col = gx := by
    rw [flat_index_inj (numX + 1) (gy + 1) gx row col (by omega) (by omega) hc0 hc1]
    constructor <;> rintro ⟨h1, h2⟩ <;> exact ⟨h1.symm, h2.symm⟩
  have c4 : (gy + 1) * (numX + 1) + (gx + 1) = row * (numX + 1) + col
      ↔ row = gy + 1 ∧ col = gx + 1 := by
    rw [flat_index_inj (numX + 1) (gy + 1) (gx + 1) row col (by omega) (by omega) hc0 hc1]
    constructor <;> rintro ⟨h1, h2⟩ <;> exact ⟨h1.symm, h2.symm⟩
  simp only [c1, c2, c3, c4]
  by_cases r1 : row = gy <;> by_cases r2 : row = gy + 1 <;> by_cases k1 : col = gx <;>
    by_cases k2 : col = gx + 1 <;>
    first
      | omega
      | simp [r1, r2, k1, k2]

theorem getElem?_eq_some_getD (l : List ℚ) (j : Nat) (hj : j < l.length) :
    l[j]? = some (l.getD j 0) := by
  simp [List.getD_eq_getElem?_getD, List.getElem?_eq_getElem hj]

/-- C14: with exact arithmetic, for valid particles, every thread count `≥ 1`
and every assignment of particles to threads of the team, the two-phase
computation of `cloudInACellInterpolation` returns a mesh that holds, at every
node `(row, col)` (flat index `row * gridWidth + col`), the sum over all
particles of the specification's bilinear kernel contribution to that node. -/
theorem two_phase_matches_kernel (numX numY nt : Int) (sched : Nat → Int) (mesh : List ℚ)
    (points : List Point) (hX : 1 ≤ numX) (hY : 1 ≤ numY) (hT : 1 ≤ nt)
    (hlen : mesh.length
      = ((setupGrid numX numY nt).gridWidth * (setupGrid numX numY nt).gridHeight).toNat)
    (hv : ∀ p ∈ points, validPoint (setupGrid numX numY nt) p)
    (hs : validSched (setupGrid numX numY nt) sched points.length) :
    ∃ out, cloudInACellInterpolation (setupGrid numX numY nt) sched mesh points = some out
      ∧ out.length
        = ((setupGrid numX numY nt).gridWidth * (setupGrid numX numY nt).gridHeight).toNat
      ∧ ∀ row col : Int, 0 ≤ row → row < (setupGrid numX numY nt).gridHeight →
          0 ≤ col → col < (setupGrid numX numY nt).gridWidth →
          out[(row * (setupGrid numX numY nt).gridWidth + col).toNat]?
            = some ((points.map
                (fun p => specContribution (setupGrid numX numY nt) p row col)).sum) := by
  refine ⟨_, cloud_valid numX numY nt sched mesh points hX hY hT hlen hv hs,
    length_referenceMesh _ _, ?_⟩
  intro row col hr0 hr1 hc0 hc1
  have hw : 0 < (setupGrid numX numY nt).gridWidth := by
    show 0 < numX + 1
    omega
  have h1 : 0 ≤ row * (setupGrid numX numY nt).gridWidth := mul_nonneg hr0 hw.le
  have h2 : (row + 1) * (setupGrid numX numY nt).gridWidth
      ≤ (setupGrid numX numY nt).gridHeight * (setupGrid numX numY nt).gridWidth :=
    mul_le_mul_of_nonneg_right (by omega) hw.le
  have e1 : (row + 1) * (setupGrid numX numY nt).gridWidth
      = row * (setupGrid numX numY nt).gridWidth + (setupGrid numX numY nt).gridWidth := by ring
  have e2 : (setupGrid numX numY nt).gridHeight * (setupGrid numX numY nt).gridWidth
      = (setupGrid numX numY nt).gridWidth * (setupGrid numX numY nt).gridHeight := by ring
  rw [e1, e2] at h2
  have hj : (row * (setupGrid numX numY nt).gridWidth + col).toNat
      < ((setupGrid numX numY nt).gridWidth * (setupGrid numX numY nt).gridHeight).toNat := by
    omega
  have hcast : (((row * (setupGrid numX numY nt).gridWidth + col).toNat : Nat) : Int)
      = row * (setupGrid numX numY nt).gridWidth + col := Int.toNat_of_nonneg (by omega)
  rw [getElem?_eq_some_getD _ _ (by rw [length_referenceMesh]; exact hj),
    getD_referenceMesh _ points _ hj, hcast]
  congr 2
  apply List.map_congr_left
  intro p hp
  exact kernelAt_eq_specContribution numX numY nt p row col hX hY (hv p hp) hc0 hc1

theorem two_phase_matches_kernel_witness :
    (1 : Int) ≤ 2 ∧ (1 : Int) ≤ 2 ∧ (1 : Int) ≤ 2
      ∧ (callocZero 9).length
        = ((setupGrid 2 2 2).gridWidth * (setupGrid 2 2 2).gridHeight).toNat
      ∧ (∀ p ∈ samplePoints, validPoint (setupGrid 2 2 2) p)
      ∧ validSched (setupGrid 2 2 2) alternate samplePoints.length
      ∧ ∃ out, cloudInACellInterpolation (setupGrid 2 2 2) alternate (callocZero 9) samplePoints
            = some out
          ∧ out.length = ((setupGrid 2 2 2).gridWidth * (setupGrid 2 2 2).gridHeight).toNat
          ∧ ∀ row col : Int, 0 ≤ row → row < (setupGrid 2 2 2).gridHeight →
              0 ≤ col → col < (setupGrid 2 2 2).gridWidth →
              out[(row * (setupGrid 2 2 2).gridWidth + col).toNat]?
                = some ((samplePoints.map
                    (fun p => specContribution (setupGrid 2 2 2) p row col)).sum) :=
  ⟨by decide, by decide, by decide, by decide, samplePoints_valid 2, alternate_valid 2 2 _,
    two_phase_matches_kernel 2 2 2 alternate (callocZero 9) samplePoints (by decide) (by decide)
      (by decide) (by decide) (samplePoints_valid 2) (alternate_valid 2 2 _)⟩

/-! ## Cell indices and local offsets -/

/-- C15: with exact arithmetic, for a grid with `numX, numY ≥ 1` and a valid
particle, the integer casts give the floors, `gridX = floor (x / stepX)` and
`gridY = floor (y / stepY)`, with `0 ≤ gridX < numX` and `0 ≤ gridY < numY`,
and the particle lies in that cell: `0 ≤ localX < stepX` and
`0 ≤ localY < stepY`. -/
theorem cell_indices_are_floors (numX numY nt : Int) (p : Point) (hX : 1 ≤ numX)
    (hY : 1 ≤ numY) (hv : validPoint (setupGrid numX numY nt) p) :
    (gridX (setupGrid numX numY nt) p = ⌊p.x / (setupGrid numX numY nt).stepX⌋
        ∧ gridY (setupGrid numX numY nt) p = ⌊p.y / (setupGrid numX numY nt).stepY⌋)
      ∧ (0 ≤ gridX (setupGrid numX numY nt) p ∧ gridX (setupGrid numX numY nt) p < numX)
      ∧ (0 ≤ gridY (setupGrid numX numY nt) p ∧ gridY (setupGrid numX numY nt) p < numY)
      ∧ (0 ≤ localX (setupGrid numX numY nt) p
        ∧ localX (setupGrid numX numY nt) p < (setupGrid numX numY nt).stepX)
      ∧ (0 ≤ localY (setupGrid numX numY nt) p
        ∧ localY (setupGrid numX numY nt) p < (setupGrid numX numY nt).stepY) := by
  obtain ⟨hfx, hbx, hlx⟩ := trunc_cell numX p.x hX hv.1.1 hv.1.2
  obtain ⟨hfy, hby, hly⟩ := trunc_cell numY p.y hY hv.2.1 hv.2.2
  exact ⟨⟨hfx, hfy⟩, hbx, hby, hlx, hly⟩

theorem cell_indices_are_floors_witness :
    (1 : Int) ≤ 2 ∧ (1 : Int) ≤ 2 ∧ validPoint (setupGrid 2 2 1) { x := 9 / 10, y := 1 / 10 }
      ∧ ((gridX (setupGrid 2 2 1) { x := 9 / 10, y := 1 / 10 }
            = ⌊({ x := 9 / 10, y := 1 / 10 } : Point).x / (setupGrid 2 2 1).stepX⌋
          ∧ gridY (setupGrid 2 2 1) { x := 9 / 10, y := 1 / 10 }
            = ⌊({ x := 9 / 10, y := 1 / 10 } : Point).y / (setupGrid 2 2 1).stepY⌋)
        ∧ (0 ≤ gridX (setupGrid 2 2 1) { x := 9 / 10, y := 1 / 10 }
          ∧ gridX (setupGrid 2 2 1) { x := 9 / 10, y := 1 / 10 } < 2)
        ∧ (0 ≤ gridY (setupGrid 2 2 1) { x := 9 / 10, y := 1 / 10 }
          ∧ gridY (setupGrid 2 2 1) { x := 9 / 10, y := 1 / 10 } < 2)
        ∧ (0 ≤ localX (setupGrid 2 2 1) { x := 9 / 10, y := 1 / 10 }
          ∧ localX (setupGrid 2 2 1) { x := 9 / 10, y := 1 / 10 } < (setupGrid 2 2 1).stepX)
        ∧ (0 ≤ localY (setupGrid 2 2 1) { x := 9 / 10, y := 1 / 10 }
          ∧ localY (setupGrid 2 2 1) { x := 9 / 10, y := 1 / 10 }
            < (setupGrid 2 2 1).stepY)) :=
  ⟨by decide, by decide, by decide!,
    cell_indices_are_floors 2 2 1 { x := 9 / 10, y := 1 / 10 } (by decide) (by decide)
      (by decide!)⟩

/-! ## Non-negativity -/

theorem areas_nonneg (numX numY nt : Int) (p : Point) (hX : 1 ≤ numX) (hY : 1 ≤ numY)
    (hv : validPoint (setupGrid numX numY nt) p) :
    0 ≤ area1 (setupGrid numX numY nt) p ∧ 0 ≤ area2 (setupGrid numX numY nt) p
      ∧ 0 ≤ area3 (setupGrid numX numY nt) p ∧ 0 ≤ area4 (setupGrid numX numY nt) p := by
  obtain ⟨_, _, hx0, hx1⟩ := trunc_cell numX p.x hX hv.1.1 hv.1.2
  obtain ⟨_, _, hy0, hy1⟩ := trunc_cell numY p.y hY hv.2.1 hv.2.2
  have hx0' : 0 ≤ localX (setupGrid numX numY nt) p := hx0
  have hx1' : 0 ≤ (setupGrid numX numY nt).stepX - localX (setupGrid numX numY nt) p :=
    sub_nonneg.2 (le_of_lt hx1)
  have hy0' : 0 ≤ localY (setupGrid numX numY nt) p := hy0
  have hy1' : 0 ≤ (setupGrid numX numY nt).stepY - localY (setupGrid numX numY nt) p :=
    sub_nonneg.2 (le_of_lt hy1)
  unfold area1 area2 area3 area4
  exact ⟨mul_nonneg hx1' hy1', mul_nonneg hx0' hy1', mul_nonneg hx1' hy0', mul_nonneg hx0' hy0'⟩

theorem kernelAt_nonneg (numX numY nt : Int) (p : Point) (i : Int) (hX : 1 ≤ numX)
    (hY : 1 ≤ numY) (hv : validPoint (setupGrid numX numY nt) p) :
    0 ≤ kernelAt (setupGrid numX numY nt) p i := by
  obtain ⟨h1, h2, h3, h4⟩ := areas_nonneg numX numY nt p hX hY hv
  unfold kernelAt weight
  have t1 : 0 ≤ (if p1 (setupGrid numX numY nt) p = i
      then area1 (setupGrid numX numY nt) p * 1 else 0) := by
    split_ifs
    · rw [mul_one]; exact h1
    · exact le_rfl
  have t2 : 0 ≤ (if p2 (setupGrid numX numY nt) p = i
      then area2 (setupGrid numX numY nt) p * 1 else 0) := by
    split_ifs
    · rw [mul_one]; exact h2
    · exact le_rfl
  have t3 : 0 ≤ (if p3 (setupGrid numX numY nt) p = i
      then area3 (setupGrid numX numY nt) p * 1 else 0) := by
    split_ifs
    · rw [mul_one]; exact h3
    · exact le_rfl
  have t4 : 0 ≤ (if p4 (setupGrid numX numY nt) p = i
      then area4 (setupGrid numX numY nt) p * 1 else 0) := by
    split_ifs
    · rw [mul_one]; exact h4
    · exact le_rfl
  linarith

theorem referenceMesh_nonneg (numX numY nt : Int) (points : List Point) (hX : 1 ≤ numX)
    (hY : 1 ≤ numY) (hv : ∀ p ∈ points, validPoint (setupGrid numX numY nt) p) :
    ∀ v ∈ referenceMesh (setupGrid numX numY nt) points, 0 ≤ v := by
  intro v hvm
  unfold referenceMesh at hvm
  obtain ⟨i, _, rfl⟩ := List.mem_map.1 hvm
  apply List.sum_nonneg
  intro w hw
  obtain ⟨p, hp, rfl⟩ := List.mem_map.1 hw
  exact kernelAt_nonneg numX numY nt p _ hX hY (hv p hp)

theorem referenceMesh_nil (g : Globals) :
    referenceMesh g [] = List.replicate (g.gridWidth * g.gridHeight).toNat 0 := by
  unfold referenceMesh
  apply List.ext_getElem
  · simp
  · intro k h1 h2
    simp

theorem myPoints_eq_nil (pts : List Point) (p r : Nat) (hn : pts.length < p)
    (hr : pts.length ≤ r) (hrp : r < p) : myPoints pts (p : Int) r = [] := by
  rw [myPoints_eq pts p r hrp, Nat.div_eq_of_lt hn, Nat.mod_eq_of_lt hn, if_neg (by omega)]
  simp

/-- C16: with exact arithmetic, for valid particles the four area weights of
each particle are non-negative and every entry of the mesh returned by
`cloudInACellInterpolation` is non-negative; for the empty particle list the
returned mesh is all-zero, and a rank `r ≥ N` receives the empty shard when
`P > N`. -/
theorem mesh_entries_nonneg (numX numY nt : Int) (sched : Nat → Int) (mesh : List ℚ)
    (points : List Point) (hX : 1 ≤ numX) (hY : 1 ≤ numY) (hT : 1 ≤ nt)
    (hlen : mesh.length
      = ((setupGrid numX numY nt).gridWidth * (setupGrid numX numY nt).gridHeight).toNat)
    (hv : ∀ p ∈ points, validPoint (setupGrid numX numY nt) p)
    (hs : validSched (setupGrid numX numY nt) sched points.length) :
    (∀ p ∈ points,
        0 ≤ area1 (setupGrid numX numY nt) p ∧ 0 ≤ area2 (setupGrid numX numY nt) p
          ∧ 0 ≤ area3 (setupGrid numX numY nt) p ∧ 0 ≤ area4 (setupGrid numX numY nt) p)
      ∧ (∃ out, cloudInACellInterpolation (setupGrid numX numY nt) sched mesh points = some out
          ∧ ∀ v ∈ out, 0 ≤ v)
      ∧ cloudInACellInterpolation (setupGrid numX numY nt) sched mesh []
          = some (List.replicate
              ((setupGrid numX numY nt).gridWidth * (setupGrid numX numY nt).gridHeight).toNat 0)
      ∧ (∀ (allPoints : List Point) (P : Int) (r : Nat), (allPoints.length : Int) < P →
          allPoints.length ≤ r → (r : Int) < P → myPoints allPoints P r = []) := by
  refine ⟨fun p hp => areas_nonneg numX numY nt p hX hY (hv p hp),
    ⟨_, cloud_valid numX numY nt sched mesh points hX hY hT hlen hv hs,
      referenceMesh_nonneg numX numY nt points hX hY hv⟩, ?_, ?_⟩
  · rw [cloud_valid numX numY nt sched mesh [] hX hY hT hlen (fun p hp => by simp at hp)
      (fun i hi => by simp at hi), referenceMesh_nil]
  · intro allPoints P r hP hr hrP
    obtain ⟨p, rfl⟩ := Int.eq_ofNat_of_zero_le (by omega : (0 : Int) ≤ P)
    exact myPoints_eq_nil allPoints p r (by omega) hr (by omega)

theorem mesh_entries_nonneg_witness :
    (1 : Int) ≤ 2 ∧ (1 : Int) ≤ 2 ∧ (1 : Int) ≤ 2
      ∧ (callocZero 9).length
        = ((setupGrid 2 2 2).gridWidth * (setupGrid 2 2 2).gridHeight).toNat
      ∧ (∀ p ∈ samplePoints, validPoint (setupGrid 2 2 2) p)
      ∧ validSched (setupGrid 2 2 2) alternate samplePoints.length
      ∧ ((∀ p ∈ samplePoints,
          0 ≤ area1 (setupGrid 2 2 2) p ∧ 0 ≤ area2 (setupGrid 2 2 2) p
            ∧ 0 ≤ area3 (setupGrid 2 2 2) p ∧ 0 ≤ area4 (setupGrid 2 2 2) p)
        ∧ (∃ out,
            cloudInACellInterpolation (setupGrid 2 2 2) alternate (callocZero 9) samplePoints
              = some out
            ∧ ∀ v ∈ out, 0 ≤ v)
        ∧ cloudInACellInterpolation (setupGrid 2 2 2) alternate (callocZero 9) []
            = some (List.replicate
                ((setupGrid 2 2 2).gridWidth * (setupGrid 2 2 2).gridHeight).toNat 0)
        ∧ (∀ (allPoints : List Point) (P : Int) (r : Nat), (allPoints.length : Int) < P →
            allPoints.length ≤ r → (r : Int) < P → myPoints allPoints P r = [])) :=
  ⟨by decide, by decide, by decide, by decide, samplePoints_valid 2, alternate_valid 2 2 _,
    mesh_entries_nonneg 2 2 2 alternate (callocZero 9) samplePoints (by decide) (by decide)
      (by decide) (by decide) (samplePoints_valid 2) (alternate_valid 2 2 _)⟩

/-! ## Send and receive counts of the scatter -/

end PIC
